import Mathlib

/-!
Verification of the MAKER consensus pipeline (decomposition, first-to-ahead-by-K
voting, red-flag filtering, synthesis, orchestration) as implemented in
`src/core/voting.ts`, `src/core/red-flag-filter.ts`, `src/core/decomposer.ts`,
`src/core/synthesizer.ts` and `src/maker.ts`.

The development is a shallow embedding: JavaScript strings are Lean `String`s
(operated on through their `List Char` data, with JS `toLowerCase` restricted to
its ASCII action), JS numbers holding counts are `Nat`, JS subtractions that may
be observed are `Int`, JS `Map` insertion-ordered tallies are association lists,
thrown exceptions are `Except`, and the unbounded voting loop is run on explicit
fuel (`none` = the loop is still running after that many iterations).  The
sampling temperature schedule and the progress-event stream are threaded to the
oracle/observers but never inspected by the core logic, so they are not
modelled; oracle behaviours are modelled as functions from call indices to
replies, which subsumes any dependence on prompts or temperatures.
-/

/-- Confidence levels reported by the oracle (`ConfidenceLevel` in `src/types/index.ts`). -/
inductive ConfidenceLevel where
  | high
  | medium
  | low
deriving DecidableEq, Repr

/-- Reasons for red-flagging a sample (`RedFlagReason` in `src/types/index.ts`). -/
inductive RedFlagReason where
  | response_too_long
  | response_too_short
  | circular_reasoning
  | invalid_format
  | low_confidence_error
  | customReason
deriving DecidableEq, Repr

/-- Result of a red-flag check (`RedFlagResult` in `src/types/index.ts`). -/
structure RedFlagResult where
  redFlagged : Bool
  reason : Option RedFlagReason := none
deriving DecidableEq, Repr

/-- `RedFlagConfig` from `src/types/index.ts` (deprecated fields, which are unused
by the implementation, are not modelled). -/
structure RedFlagConfig where
  maxTokens : Option Nat := none
  minChars : Option Nat := none
  customValidator : Option (String → RedFlagResult) := none

/-- The `RedFlagFilter` class state after its constructor applied the defaults
(`maxTokens ?? 750`, `minChars ?? 5`). -/
structure RedFlagFilter where
  maxTokens : Nat
  minChars : Nat
  customValidator : Option (String → RedFlagResult)

/-- The `RedFlagFilter` constructor from `src/core/red-flag-filter.ts`. -/
def RedFlagFilter.ofConfig (config : RedFlagConfig) : RedFlagFilter :=
  { maxTokens := config.maxTokens.getD 750
    minChars := config.minChars.getD 5
    customValidator := config.customValidator }

/-- JS whitespace test for one character (as far as Lean's `Char.isWhitespace` models it). -/
def isWsChar (c : Char) : Bool := c.isWhitespace

/-- Drop the longest whitespace prefix and suffix, the `List Char` form of JS `trim()`. -/
def trimChars (l : List Char) : List Char :=
  ((l.dropWhile isWsChar).reverse.dropWhile isWsChar).reverse

/-- `RedFlagFilter.check` from `src/core/red-flag-filter.ts`: the fixed-priority
admission checks (empty, too long, too short, parse failure, custom validator). -/
def RedFlagFilter.check (f : RedFlagFilter) (answer : String)
    (parseSucceeded : Bool := true) : RedFlagResult :=
  if answer = "" then { redFlagged := true, reason := some .response_too_short }
  else
    let trimmedAnswer := trimChars answer.data
    let estimatedTokens := (trimmedAnswer.length + 3) / 4
    if f.maxTokens < estimatedTokens then
      { redFlagged := true, reason := some .response_too_long }
    else if trimmedAnswer.length < f.minChars then
      { redFlagged := true, reason := some .response_too_short }
    else if parseSucceeded = false then
      { redFlagged := true, reason := some .invalid_format }
    else
      match f.customValidator with
      | some validator =>
        let customResult := validator ⟨trimmedAnswer⟩
        if customResult.redFlagged then customResult else { redFlagged := false }
      | none => { redFlagged := false }

/-- Membership in the trailing-punctuation set `[.,!?;:]` of `normalizeAnswer`. -/
def isPunctChar (c : Char) : Bool :=
  c = '.' || c = ',' || c = '!' || c = '?' || c = ';' || c = ':'

/-- ASCII lowercasing of one character (the action of JS `toLowerCase` on ASCII). -/
def lowerChar (c : Char) : Char :=
  if 65 ≤ c.toNat ∧ c.toNat ≤ 90 then Char.ofNat (c.toNat + 32) else c

/-- The `List Char` form of JS `replace(/\s+/g, ' ')`: each maximal whitespace
run becomes a single space. -/
def collapseWs : List Char → List Char
  | [] => []
  | [c] => if isWsChar c then [' '] else [c]
  | a :: b :: rest =>
    if isWsChar a && isWsChar b then collapseWs (b :: rest)
    else (if isWsChar a then ' ' else a) :: collapseWs (b :: rest)

/-- The `List Char` form of JS `replace(/[.,!?;:]+$/, '')`. -/
def stripTrailingPunct (l : List Char) : List Char :=
  (l.reverse.dropWhile isPunctChar).reverse

/-- `VotingEngine.normalizeAnswer` from `src/core/voting.ts`: lowercase, trim,
collapse whitespace runs to single spaces, strip the trailing punctuation run. -/
def normalizeAnswer (answer : String) : String :=
  if answer = "" then ""
  else ⟨stripTrailingPunct (collapseWs (trimChars (answer.data.map lowerChar)))⟩

/-- No two adjacent whitespace characters (the shape `collapseWs` guarantees). -/
def notTwoWs (a b : Char) : Prop := ¬(isWsChar a = true ∧ isWsChar b = true)

/-- Whether a string ends in a whitespace character. -/
def endsInWs (s : String) : Bool :=
  match s.data.getLast? with
  | some c => isWsChar c
  | none => false

/-- One oracle sample (`Vote` in `src/types/index.ts`).  The `temperature` field is
threaded to callbacks but never branched on by the core, so it is not modelled. -/
structure Vote where
  voteIndex : Nat
  answer : String
  confidence : ConfidenceLevel
  reasoning : Option String := none
  parseSucceeded : Option Bool := none
  redFlagged : Bool := false
  redFlagReason : Option RedFlagReason := none
deriving DecidableEq, Repr

/-- Voting statistics (`VotingStats` in `src/types/index.ts`).  `margin` is an `Int`
because it is produced by JS subtraction. -/
structure VotingStats where
  totalVotes : Nat
  validVotes : Nat
  redFlaggedVotes : Nat
  winningVoteCount : Nat
  margin : Int
  k : Nat
deriving DecidableEq, Repr

/-- Result of one voting session (`VotingResult` in `src/types/index.ts`). -/
structure VotingResult where
  consensusReached : Bool
  winner : Option String
  confidence : Option ConfidenceLevel := none
  stats : VotingStats
deriving DecidableEq, Repr

/-- One tally bucket (`VoteData` in `src/core/voting.ts`). -/
structure VoteData where
  count : Nat
  originalAnswer : String
  confidence : ConfidenceLevel
deriving DecidableEq, Repr

/-- `VotingConfig` from `src/types/index.ts` (deprecated fields, unused by the
continuous-voting path, are not modelled). -/
structure VotingConfig where
  k : Option Nat := none
  maxVotes : Option Nat := none
deriving DecidableEq, Repr

/-- The `VotingEngine` class state after its constructor applied the defaults
(`k ?? 3`, `maxVotes ?? 100`). -/
structure VotingEngine where
  k : Nat
  maxVotes : Nat
deriving DecidableEq, Repr

/-- The `VotingEngine` constructor from `src/core/voting.ts`. -/
def VotingEngine.ofConfig (config : VotingConfig) : VotingEngine :=
  { k := config.k.getD 3, maxVotes := config.maxVotes.getD 100 }

/-- `compareConfidence` from `src/core/voting.ts` (`high`=3, `medium`=2, `low`=1). -/
def compareConfidence (a b : ConfidenceLevel) : Int :=
  let order : ConfidenceLevel → Int
    | .high => 3
    | .medium => 2
    | .low => 1
  order a - order b

/-- Tally update shared by `voteUntilConsensus` and `countVotes`: increment the
bucket of `normalized` in place (keeping the better confidence) if it exists,
otherwise append a fresh bucket holding the vote's original-case answer.  This
mirrors the insertion-ordered JS `Map` used by the source. -/
def tallyInsert (counts : List (String × VoteData)) (normalized : String)
    (vote : Vote) : List (String × VoteData) :=
  match counts with
  | [] => [(normalized, { count := 1, originalAnswer := vote.answer, confidence := vote.confidence })]
  | (key, data) :: rest =>
    if key = normalized then
      (key,
        { data with
          count := data.count + 1
          confidence :=
            if 0 < compareConfidence vote.confidence data.confidence then vote.confidence
            else data.confidence }) :: rest
    else (key, data) :: tallyInsert rest normalized vote

/-- `countVotes` from `src/core/voting.ts`: tally a list of votes by normalized
answer, skipping votes whose normalized answer is empty. -/
def countVotes (votes : List Vote) : List (String × VoteData) :=
  votes.foldl
    (fun counts vote =>
      let normalized := normalizeAnswer vote.answer
      if normalized = "" then counts else tallyInsert counts normalized vote)
    []

/-- JS `Math.max(...)` over a list of naturals (used on nonempty lists only). -/
def listMax (l : List Nat) : Nat := l.foldr Nat.max 0

/-- The second-highest value of a multiset of tally counts: the maximum after
removing one occurrence of the maximum (0 if fewer than two entries). -/
def secondHighest (l : List Nat) : Nat := listMax (l.erase (listMax l))

/-- Descending order on tally counts; sorting with it matches the stable JS
`sort((a, b) => b - a)`. -/
def natGE (a b : Nat) : Prop := b ≤ a

/-- Descending order on tally entries by count; sorting with it matches the
stable JS `sort((a, b) => b[1].count - a[1].count)`. -/
def entryGE (a b : String × VoteData) : Prop := b.2.count ≤ a.2.count

instance : DecidableRel natGE := fun a b => Nat.decLe b a

instance : DecidableRel entryGE := fun a b => Nat.decLe b.2.count a.2.count

instance : IsTotal Nat natGE := ⟨fun a b => (Nat.le_total b a).imp id id⟩

instance : IsTrans Nat natGE := ⟨fun _ _ _ hab hbc => Nat.le_trans hbc hab⟩

instance : IsTotal (String × VoteData) entryGE :=
  ⟨fun a b => (Nat.le_total b.2.count a.2.count).imp id id⟩

instance : IsTrans (String × VoteData) entryGE :=
  ⟨fun _ _ _ hab hbc => Nat.le_trans hbc hab⟩

/-- The JS ternary `sortedCounts.length > 1 ? sortedCounts[1] : 0` of
`voteUntilConsensus`: the second element of the descending-sorted count list. -/
def runnerUpOf (sortedCounts : List Nat) : Nat :=
  match sortedCounts with
  | _ :: second :: _ => second
  | _ => 0

/-- `createStats` from `src/core/voting.ts`. -/
def VotingEngine.createStats (e : VotingEngine) (allVotes validVotes : List Vote)
    (winningVoteCount runnerUpVotes : Nat) : VotingStats :=
  { totalVotes := allVotes.length
    validVotes := validVotes.length
    redFlaggedVotes := allVotes.length - validVotes.length
    winningVoteCount := winningVoteCount
    margin := (winningVoteCount : Int) - (runnerUpVotes : Int)
    k := e.k }

/-- `VotingEngine.determineWinner` from `src/core/voting.ts`: one-shot
first-to-ahead-by-K scoring over a pre-supplied vote list. -/
def VotingEngine.determineWinner (e : VotingEngine) (votes : List Vote) : VotingResult :=
  let validVotes := votes.filter (fun v => !v.redFlagged)
  if validVotes.isEmpty then
    { consensusReached := false, winner := none
      stats := e.createStats votes validVotes 0 0 }
  else
    let voteCounts := countVotes validVotes
    let sorted := List.insertionSort entryGE voteCounts
    match sorted with
    | [] =>
      { consensusReached := false, winner := none
        stats := e.createStats votes validVotes 0 0 }
    | (_, winnerData) :: rest =>
      let winnerVotes := winnerData.count
      let runnerUpVotes := match rest with
        | [] => 0
        | (_, runnerUp) :: _ => runnerUp.count
      let consensusReached :=
        match rest with
        | [] => decide (e.k ≤ winnerVotes)
        | _ :: _ => decide ((e.k : Int) ≤ (winnerVotes : Int) - (runnerUpVotes : Int))
      { consensusReached := consensusReached
        winner := some winnerData.originalAnswer
        confidence := some winnerData.confidence
        stats := e.createStats votes validVotes winnerVotes runnerUpVotes }

/-- Abstract content of one answer-generation completion, as far as
`generateVote` inspects it: a JSON object carrying an `answer` field, a JSON
object without one, or a plain string. -/
inductive AnswerContent where
  | objWithAnswer (answer : String) (confidence : Option ConfidenceLevel) (reasoning : Option String)
  | objNoAnswer
  | str (s : String)
deriving DecidableEq, Repr

/-- Oracle behaviour for one voting session: the outcome of the `n`-th
`provider.complete` call made by `generateVote` (`Except.error` models a thrown
exception). -/
def VoteOracle : Type := Nat → Except Unit AnswerContent

/-- `generateVote` from `src/core/voting.ts`: build a `Vote` from the oracle's
reply, treating a missing `answer` field or a plain-string reply as a parse
failure and converting a thrown exception into a pre-flagged empty vote. -/
def generateVote (oracle : VoteOracle) (voteIndex : Nat) : Vote :=
  match oracle voteIndex with
  | .ok (.objWithAnswer a c r) =>
    { voteIndex := voteIndex, answer := a, confidence := c.getD .medium
      reasoning := r, parseSucceeded := some true }
  | .ok .objNoAnswer =>
    { voteIndex := voteIndex, answer := "", confidence := .medium
      parseSucceeded := some false }
  | .ok (.str s) =>
    { voteIndex := voteIndex, answer := s, confidence := .medium
      parseSucceeded := some false }
  | .error _ =>
    { voteIndex := voteIndex, answer := "", confidence := .low
      parseSucceeded := some false, redFlagged := true
      redFlagReason := some .invalid_format }

/-- Running state of the `while (true)` loop of `voteUntilConsensus`. -/
structure LoopState where
  voteCounts : List (String × VoteData) := []
  allVotes : List Vote := []
  validVoteCount : Nat := 0
  voteIndex : Nat := 0
deriving DecidableEq, Repr

/-- Outcome of one iteration of the voting loop: either a `return` or the state
carried into the next iteration. -/
inductive StepOutcome where
  | done (r : VotingResult)
  | next (st : LoopState)
deriving DecidableEq, Repr

/-- One iteration of the `while (true)` loop of `voteUntilConsensus`
(`src/core/voting.ts`): draw a sample, run the red-flag filter (a flagged sample
`continue`s, skipping the `maxVotes` check), skip empty-normalized answers the
same way, otherwise tally the sample, test the first-to-ahead-by-K condition,
and only then test the `maxVotes` safety cutoff. -/
def VotingEngine.voteStep (e : VotingEngine) (redFlagFilter : RedFlagFilter)
    (oracle : VoteOracle) (st : LoopState) : StepOutcome :=
  let vote := generateVote oracle st.voteIndex
  let allVotes := st.allVotes ++ [vote]
  let voteIndex := st.voteIndex + 1
  let flagResult := redFlagFilter.check vote.answer (vote.parseSucceeded.getD true)
  if flagResult.redFlagged then
    .next { st with allVotes := allVotes, voteIndex := voteIndex }
  else
    let validVoteCount := st.validVoteCount + 1
    let normalized := normalizeAnswer vote.answer
    if normalized = "" then
      .next { st with allVotes := allVotes, voteIndex := voteIndex
                      validVoteCount := validVoteCount }
    else
      let voteCounts := tallyInsert st.voteCounts normalized vote
      let counts := voteCounts.map (fun v => v.2.count)
      if counts.isEmpty then
        .next { voteCounts := voteCounts, allVotes := allVotes
                validVoteCount := validVoteCount, voteIndex := voteIndex }
      else
        let maxCount := listMax counts
        let sortedCounts := List.insertionSort natGE counts
        let runnerUpCount := runnerUpOf sortedCounts
        let nextState : LoopState :=
          { voteCounts := voteCounts, allVotes := allVotes
            validVoteCount := validVoteCount, voteIndex := voteIndex }
        let cutoffCheck : StepOutcome :=
          if e.maxVotes ≤ allVotes.length then
            let sorted := List.insertionSort entryGE voteCounts
            match sorted with
            | [] =>
              .done { consensusReached := false, winner := none, confidence := none
                      stats := { totalVotes := allVotes.length
                                 validVotes := validVoteCount
                                 redFlaggedVotes := allVotes.length - validVoteCount
                                 winningVoteCount := 0, margin := 0, k := e.k } }
            | (_, winnerData) :: rest =>
              let runnerUpData : Option VoteData := match rest with
                | [] => none
                | (_, runnerUp) :: _ => some runnerUp
              .done { consensusReached := false
                      winner := some winnerData.originalAnswer
                      confidence := some winnerData.confidence
                      stats := { totalVotes := allVotes.length
                                 validVotes := validVoteCount
                                 redFlaggedVotes := allVotes.length - validVoteCount
                                 winningVoteCount := winnerData.count
                                 margin := (winnerData.count : Int) -
                                   ((runnerUpData.map (fun d => d.count)).getD 0 : Int)
                                 k := e.k } }
          else .next nextState
        if e.k + runnerUpCount ≤ maxCount then
          match voteCounts.find? (fun v => v.2.count == maxCount) with
          | some (_, data) =>
            .done { consensusReached := true
                    winner := some data.originalAnswer
                    confidence := some data.confidence
                    stats := { totalVotes := allVotes.length
                               validVotes := validVoteCount
                               redFlaggedVotes := allVotes.length - validVoteCount
                               winningVoteCount := maxCount
                               margin := (maxCount : Int) - (runnerUpCount : Int)
                               k := e.k } }
          | none => cutoffCheck
        else cutoffCheck

/-- The voting loop run for at most `fuel` iterations; `none` means the loop was
still running after `fuel` samples. -/
def VotingEngine.voteLoop (e : VotingEngine) (redFlagFilter : RedFlagFilter)
    (oracle : VoteOracle) : Nat → LoopState → Option VotingResult
  | 0, _ => none
  | fuel + 1, st =>
    match e.voteStep redFlagFilter oracle st with
    | .done r => some r
    | .next st' => e.voteLoop redFlagFilter oracle fuel st'

/-- `VotingEngine.voteUntilConsensus` from `src/core/voting.ts`, fuelled. -/
def VotingEngine.voteUntilConsensus (e : VotingEngine) (redFlagFilter : RedFlagFilter)
    (oracle : VoteOracle) (fuel : Nat) : Option VotingResult :=
  e.voteLoop redFlagFilter oracle fuel {}

/-- Question types (`QuestionType` in `src/types/index.ts`). -/
inductive QuestionType where
  | factual
  | comparative
  | multiHop
  | aggregative
  | procedural
  | analytical
deriving DecidableEq, Repr

/-- Classification result (`Classification` in `src/types/index.ts`). -/
structure Classification where
  needsDecomposition : Bool
  complexity : Nat
  questionType : QuestionType
  reasoning : Option String := none
deriving DecidableEq, Repr

/-- A sub-question of the decomposition plan (`SubQuestion` in `src/types/index.ts`). -/
structure SubQuestion where
  id : String
  question : String
  dependencies : List String
  type : QuestionType
  index : Nat
deriving DecidableEq, Repr

/-- Abstract content of one classification completion, as far as
`parseClassification` inspects it. -/
inductive ClassifyContent where
  | obj (needsDecomposition : Bool) (complexity : Option Nat)
        (questionType : Option QuestionType) (reasoning : Option String)
  | nonObj
deriving DecidableEq, Repr

/-- `parseClassification` from `src/prompts/index.ts`: default a missing or zero
complexity to 5 and a missing question type to `factual`. -/
def parseClassification (response : ClassifyContent) : Classification :=
  match response with
  | .obj nd cx qt rs =>
    { needsDecomposition := nd
      complexity := match cx with
        | some n => if n = 0 then 5 else n
        | none => 5
      questionType := qt.getD .factual
      reasoning := some (rs.getD "") }
  | .nonObj =>
    { needsDecomposition := false, complexity := 5, questionType := .factual }

/-- One raw sub-question object inside a decomposition completion, as far as
`parseDecomposition` inspects it (a `none`/empty field is JS-falsy). -/
structure RawSubQuestion where
  id : Option String := none
  question : Option String := none
  dependencies : Option (List String) := none
  type : Option QuestionType := none
deriving DecidableEq, Repr

/-- Abstract content of one decomposition completion. -/
inductive DecomposeContent where
  | obj (subQuestions : Option (List RawSubQuestion)) (synthesisStrategy : Option String)
  | nonObj
deriving DecidableEq, Repr

/-- Defaulting of one raw sub-question at position `index` inside
`parseDecomposition` (`src/prompts/index.ts`). -/
def parseRawSubQuestion (index : Nat) (sq : RawSubQuestion) : SubQuestion :=
  { id := match sq.id with
      | some s => if s = "" then "sq" ++ toString (index + 1) else s
      | none => "sq" ++ toString (index + 1)
    question := sq.question.getD ""
    dependencies := sq.dependencies.getD []
    type := sq.type.getD .factual
    index := index }

/-- `parseDecomposition` from `src/prompts/index.ts`. -/
def parseDecomposition (response : DecomposeContent) : List SubQuestion × String :=
  match response with
  | .obj sqs strat =>
    (match sqs with
     | some arr => (arr.enum.map fun p => parseRawSubQuestion p.1 p.2)
     | none => [],
     match strat with
     | some s => if s = "" then "combine" else s
     | none => "combine")
  | .nonObj => ([], "combine")

/-- Abstract content of one synthesis completion, as far as `parseSynthesis`
inspects it. -/
inductive SynthContent where
  | obj (finalAnswer : Option String) (answer : Option String) (confidence : Option String)
  | str (s : String)
  | nonObj
deriving DecidableEq, Repr

/-- `parseSynthesis` from `src/prompts/index.ts` (`String(r.finalAnswer || r.answer || '')`
and `String(r.confidence || 'medium')`, with JS-falsy modelled as `none`/empty). -/
def parseSynthesis (response : SynthContent) : String × String :=
  match response with
  | .obj finalAnswer answer confidence =>
    (match finalAnswer with
     | some s => if s = "" then (answer.getD "") else s
     | none => answer.getD "",
     match confidence with
     | some s => if s = "" then "medium" else s
     | none => "medium")
  | .str s => (s, "medium")
  | .nonObj => ("", "low")

/-- Oracle behaviour for one `ask` run.  Classification, decomposition and
synthesis each perform at most one `provider.complete` call per run, so they are
single replies; voting draws an unbounded stream per sub-question, indexed by
the sub-question's position in the plan.  `Except.error` models a thrown
exception at that call site. -/
structure MakerOracle where
  classifyResp : Except Unit ClassifyContent
  decomposeResp : Except Unit DecomposeContent
  votes : Nat → VoteOracle
  synthResp : Except Unit SynthContent

/-- `DecompositionConfig` from `src/types/index.ts` (`classifier` is either
`'auto'`, modelled as `none`, or a caller-supplied function; the custom prompt
template only changes prompt text, not behaviour, and is not modelled). -/
structure DecompositionConfig where
  enabled : Option Bool := none
  maxSubQuestions : Option Nat := none
  classifier : Option (String → Option String → Classification) := none

/-- The `Decomposer` class state after its constructor applied the defaults
(`enabled ?? true`, `maxSubQuestions ?? 8`). -/
structure Decomposer where
  enabled : Bool
  maxSubQuestions : Nat
  classifier : Option (String → Option String → Classification)

/-- The `Decomposer` constructor from `src/core/decomposer.ts`. -/
def Decomposer.ofConfig (config : DecompositionConfig) : Decomposer :=
  { enabled := config.enabled.getD true
    maxSubQuestions := config.maxSubQuestions.getD 8
    classifier := config.classifier }

/-- `Decomposer.classify` from `src/core/decomposer.ts`, returning the
classification together with the number of oracle calls made. -/
def Decomposer.classify (d : Decomposer) (oracle : MakerOracle) (question : String)
    (context : Option String) : Except Unit (Classification × Nat) :=
  match d.classifier with
  | some f => .ok (f question context, 0)
  | none =>
    match oracle.classifyResp with
    | .error e => .error e
    | .ok resp => .ok (parseClassification resp, 1)

/-- `createSingleSubQuestion` from `src/core/decomposer.ts`. -/
def Decomposer.createSingleSubQuestion (question : String)
    (type : QuestionType := .factual) : SubQuestion :=
  { id := "sq1", question := question, dependencies := [], type := type, index := 0 }

/-- Output of `Decomposer.decompose`. -/
structure DecomposeOutput where
  subQuestions : List SubQuestion
  synthesisStrategy : String
  classification : Classification
deriving DecidableEq, Repr

/-- `Decomposer.decompose` from `src/core/decomposer.ts`, returning the plan
together with the number of oracle calls made: skip everything when disabled,
otherwise classify, then either wrap the question as a single sub-question or
ask the oracle for a decomposition, truncate it to `maxSubQuestions`, and fall
back to the single sub-question when the oracle returned zero sub-questions. -/
def Decomposer.decompose (d : Decomposer) (oracle : MakerOracle) (question : String)
    (context : Option String) : Except Unit (DecomposeOutput × Nat) :=
  if !d.enabled then
    .ok ({ subQuestions := [Decomposer.createSingleSubQuestion question]
           synthesisStrategy := "none"
           classification :=
             { needsDecomposition := false, complexity := 1, questionType := .factual } }, 0)
  else
    match d.classify oracle question context with
    | .error e => .error e
    | .ok (classification, classifyCalls) =>
      if !classification.needsDecomposition then
        .ok ({ subQuestions :=
                 [Decomposer.createSingleSubQuestion question classification.questionType]
               synthesisStrategy := "none"
               classification := classification }, classifyCalls)
      else
        match oracle.decomposeResp with
        | .error e => .error e
        | .ok resp =>
          let parsed := parseDecomposition resp
          let subQuestions :=
            if d.maxSubQuestions < parsed.1.length then parsed.1.take d.maxSubQuestions
            else parsed.1
          if subQuestions.isEmpty then
            .ok ({ subQuestions :=
                     [Decomposer.createSingleSubQuestion question classification.questionType]
                   synthesisStrategy := "none"
                   classification := classification }, classifyCalls + 1)
          else
            .ok ({ subQuestions := subQuestions
                   synthesisStrategy := parsed.2
                   classification := classification }, classifyCalls + 1)

/-- `SynthesisConfig` from `src/types/index.ts` (the custom prompt template only
changes prompt text, not behaviour, and is not modelled). -/
structure SynthesisConfig where
  enabled : Option Bool := none
  language : Option String := none
deriving DecidableEq, Repr

/-- The `Synthesizer` class state after its constructor applied the defaults
(`enabled ?? true`, `language ?? 'English'`). -/
structure Synthesizer where
  enabled : Bool
  language : String
deriving DecidableEq, Repr

/-- The `Synthesizer` constructor from `src/core/synthesizer.ts`. -/
def Synthesizer.ofConfig (config : SynthesisConfig) : Synthesizer :=
  { enabled := config.enabled.getD true, language := config.language.getD "English" }

/-- The durable record of one resolved sub-question (`SubQuestionResult` in
`src/types/index.ts`). -/
structure SubQuestionResult where
  question : String
  answer : String
  confidence : ConfidenceLevel
  consensusReached : Bool
  votingStats : VotingStats
deriving DecidableEq, Repr

/-- `fallbackSynthesis` from `src/core/synthesizer.ts`: concatenate the
non-empty (post-trim) sub-answers with single spaces. -/
def Synthesizer.fallbackSynthesis (subAnswers : List SubQuestionResult) : String :=
  match subAnswers with
  | [] => "Unable to determine answer."
  | [sa] => sa.answer
  | _ =>
    String.intercalate " "
      ((subAnswers.filter fun sa =>
          sa.answer ≠ "" ∧ (⟨trimChars sa.answer.data⟩ : String) ≠ "").map fun sa => sa.answer)

/-- `calculateConfidence` from `src/core/synthesizer.ts`.  The synthesis call's
own confidence arrives as a raw string from `parseSynthesis` and is compared
with `===` in the source, so it is kept as a `String` here; `counts.medium >
counts.high` decides the medium case. -/
def Synthesizer.calculateConfidence (synthesisConfidence : String)
    (subAnswers : List SubQuestionResult) : ConfidenceLevel :=
  let lowCount := (subAnswers.filter fun sa => sa.confidence = .low).length
  let mediumCount := (subAnswers.filter fun sa => sa.confidence = .medium).length
  let highCount := (subAnswers.filter fun sa => sa.confidence = .high).length
  if synthesisConfidence = "low" ∨ 0 < lowCount then .low
  else if synthesisConfidence = "medium" ∨ highCount < mediumCount then .medium
  else .high

/-- `Synthesizer.synthesize` from `src/core/synthesizer.ts`, returning the
answer/confidence pair together with the number of oracle calls made: fall back
for zero sub-results (or when disabled), pass a single sub-result through
unchanged, and otherwise make one oracle call and combine its parsed output with
the sub-result confidence rollup. -/
def Synthesizer.synthesize (s : Synthesizer) (oracle : MakerOracle)
    (_originalQuestion : String) (subAnswers : List SubQuestionResult) :
    Except Unit ((String × ConfidenceLevel) × Nat) :=
  if !s.enabled ∨ subAnswers.isEmpty then
    .ok ((((subAnswers.head?.map fun sa => sa.answer).getD "Unable to determine answer."),
          ((subAnswers.head?.map fun sa => sa.confidence).getD .low)), 0)
  else
    match subAnswers with
    | [sa] => .ok ((sa.answer, sa.confidence), 0)
    | _ =>
      match oracle.synthResp with
      | .error e => .error e
      | .ok resp =>
        let parsed := parseSynthesis resp
        let finalConfidence := Synthesizer.calculateConfidence parsed.2 subAnswers
        let answer := if parsed.1 = "" then Synthesizer.fallbackSynthesis subAnswers
                      else parsed.1
        .ok ((answer, finalConfidence), 1)

/-- `MakerConfig` from `src/types/index.ts`, restricted to the behavioural
surface (provider plumbing fields are not modelled; an unknown provider tag is a
fatal constructor error and never reaches `ask`). -/
structure MakerConfig where
  decomposition : DecompositionConfig := {}
  voting : VotingConfig := {}
  redFlags : RedFlagConfig := {}
  synthesis : SynthesisConfig := {}

/-- `AskOptions` from `src/types/index.ts` (the deprecated `samples` field is
unused by `ask`). -/
structure AskOptions where
  context : Option String := none
  k : Option Nat := none

/-- The final output of `ask` (`MakerResult` in `src/types/index.ts`); wall-clock
time and token usage are environment-dependent plumbing and are not modelled. -/
structure MakerResult where
  answer : String
  confidence : ConfidenceLevel
  consensusReached : Bool
  isDecomposed : Bool
  subQuestions : List SubQuestionResult
  synthesisStrategy : String
  votingStats : VotingStats
deriving DecidableEq, Repr

/-- The `Maker` class state after its constructor built the components
(`src/maker.ts`). -/
structure Maker where
  decomposer : Decomposer
  votingEngine : VotingEngine
  redFlagFilter : RedFlagFilter
  synthesizer : Synthesizer
  config : MakerConfig

/-- The `Maker` constructor from `src/maker.ts`. -/
def Maker.ofConfig (config : MakerConfig) : Maker :=
  { decomposer := Decomposer.ofConfig config.decomposition
    votingEngine := VotingEngine.ofConfig config.voting
    redFlagFilter := RedFlagFilter.ofConfig config.redFlags
    synthesizer := Synthesizer.ofConfig config.synthesis
    config := config }

/-- `calculateOverallConfidence` from `src/maker.ts` (`mediumCount >
subResults.length / 2` is real-number division in JS, hence the doubling). -/
def Maker.calculateOverallConfidence (subResults : List SubQuestionResult)
    (synthesisConfidence : ConfidenceLevel) : ConfidenceLevel :=
  if subResults.isEmpty then .low
  else if (subResults.any fun r => r.confidence = .low ∨ r.consensusReached = false) ∨
      synthesisConfidence = .low then .low
  else if subResults.length <
      2 * (subResults.filter fun r => r.confidence = .medium).length ∨
      synthesisConfidence = .medium then .medium
  else .high

/-- `aggregateVotingStats` from `src/maker.ts`: a single sub-result's stats pass
through; two or more are combined by summing the vote counters, taking the
minimum `winningVoteCount` and `margin`, and reporting the constructor-time
engine's `k`. -/
def Maker.aggregateVotingStats (m : Maker) (subResults : List SubQuestionResult) : VotingStats :=
  match subResults with
  | [] =>
    { totalVotes := 0, validVotes := 0, redFlaggedVotes := 0
      winningVoteCount := 0, margin := 0, k := m.votingEngine.k }
  | [r] => r.votingStats
  | r :: rs =>
    { totalVotes := (subResults.map fun x => x.votingStats.totalVotes).sum
      validVotes := (subResults.map fun x => x.votingStats.validVotes).sum
      redFlaggedVotes := (subResults.map fun x => x.votingStats.redFlaggedVotes).sum
      winningVoteCount :=
        (rs.map fun x => x.votingStats.winningVoteCount).foldl min
          r.votingStats.winningVoteCount
      margin := (rs.map fun x => x.votingStats.margin).foldl min r.votingStats.margin
      k := m.votingEngine.k }

/-- The per-sub-question body of `ask`'s voting loop (`src/maker.ts`): build a
fresh `VotingEngine` with the per-call `k` override and run continuous voting on
the sub-question's oracle stream. -/
def Maker.runSubQuestion (m : Maker) (oracle : MakerOracle) (options : AskOptions)
    (fuel : Nat) (index : Nat) (sq : SubQuestion) : Option SubQuestionResult :=
  let votingEngine := VotingEngine.ofConfig
    { m.config.voting with
      k := match options.k with
        | some kOverride => some kOverride
        | none => m.config.voting.k }
  match votingEngine.voteUntilConsensus m.redFlagFilter (oracle.votes index) fuel with
  | none => none
  | some result =>
    some { question := sq.question
           answer := result.winner.getD "Unable to determine answer."
           confidence := result.confidence.getD .low
           consensusReached := result.consensusReached
           votingStats := result.stats }

/-- `ask`'s sequential walk over the plan (`src/maker.ts`), threading the
sub-question index; `none` when some voting session exhausted its fuel. -/
def Maker.runAll (m : Maker) (oracle : MakerOracle) (options : AskOptions)
    (fuel : Nat) : Nat → List SubQuestion → Option (List SubQuestionResult)
  | _, [] => some []
  | index, sq :: rest =>
    match m.runSubQuestion oracle options fuel index sq with
    | none => none
    | some r =>
      match m.runAll oracle options fuel (index + 1) rest with
      | none => none
      | some rs => some (r :: rs)

/-- Assembly of the final `MakerResult` at the end of `ask` (`src/maker.ts`). -/
def Maker.buildResult (m : Maker) (dec : DecomposeOutput)
    (subResults : List SubQuestionResult) (synth : String × ConfidenceLevel) : MakerResult :=
  { answer := synth.1
    confidence := Maker.calculateOverallConfidence subResults synth.2
    consensusReached := subResults.all fun r => r.consensusReached
    isDecomposed := 1 < dec.subQuestions.length
    subQuestions := subResults
    synthesisStrategy := dec.synthesisStrategy
    votingStats := m.aggregateVotingStats subResults }

/-- `Maker.ask` from `src/maker.ts`, fuelled: decompose, vote each sub-question
in plan order, synthesize, aggregate.  `none` means some voting loop was still
running after `fuel` samples; `some (.error e)` means `ask` rejected with a
propagated oracle exception. -/
def Maker.ask (m : Maker) (oracle : MakerOracle) (question : String)
    (options : AskOptions) (fuel : Nat) : Option (Except Unit MakerResult) :=
  match m.decomposer.decompose oracle question options.context with
  | .error e => some (.error e)
  | .ok (dec, _) =>
    match m.runAll oracle options fuel 0 dec.subQuestions with
    | none => none
    | some subResults =>
      match m.synthesizer.synthesize oracle question subResults with
      | .error e => some (.error e)
      | .ok (synth, _) => some (.ok (m.buildResult dec subResults synth))

instance {ε α : Type} [DecidableEq ε] [DecidableEq α] : DecidableEq (Except ε α)
  | .error a, .error b =>
    if h : a = b then .isTrue (h ▸ rfl) else .isFalse (fun hc => h (Except.error.inj hc))
  | .error _, .ok _ => .isFalse Except.noConfusion
  | .ok _, .error _ => .isFalse Except.noConfusion
  | .ok a, .ok b =>
    if h : a = b then .isTrue (h ▸ rfl) else .isFalse (fun hc => h (Except.ok.inj hc))

/-- Whether a loop iteration fell through to the next iteration. -/
def StepOutcome.isNext : StepOutcome → Bool
  | .next _ => true
  | .done _ => false

/-- The red-flag filter with default configuration (`maxTokens` 750, `minChars` 5). -/
def defaultRedFlagFilter : RedFlagFilter := RedFlagFilter.ofConfig {}

/-- A voting engine with `k = 2` and the default `maxVotes = 100`. -/
def engineK2 : VotingEngine := VotingEngine.ofConfig { k := some 2 }

/-- An oracle whose sequential parsed answers are Paris, London, Paris, Paris
(then Paris forever), each at confidence `high`. -/
def parisOracle : VoteOracle := fun n =>
  .ok (.objWithAnswer (["Paris", "London", "Paris", "Paris"].getD n "Paris") (some .high) none)

/-- The voting result of the Paris/London scenario at `k = 2`. -/
def parisConsensusResult : VotingResult :=
  { consensusReached := true
    winner := some "Paris"
    confidence := some .high
    stats := { totalVotes := 4, validVotes := 4, redFlaggedVotes := 0
               winningVoteCount := 3, margin := 2, k := 2 } }

/-- The vote list Paris, Paris, Paris, London for one-shot scoring. -/
def parisVotes : List Vote :=
  [ { voteIndex := 0, answer := "Paris", confidence := .high }
  , { voteIndex := 1, answer := "Paris", confidence := .high }
  , { voteIndex := 2, answer := "Paris", confidence := .high }
  , { voteIndex := 3, answer := "London", confidence := .high } ]

/-- An oracle whose every call throws, so that every sample is red-flagged. -/
def rejectAllOracle : VoteOracle := fun _ => .error ()

/-- An oracle whose every sample is admitted by the default filter (five
characters, parse succeeded) but normalizes to the empty string. -/
def emptyNormalizedOracle : VoteOracle := fun _ => .ok (.objWithAnswer "....." none none)

/-- A loop state in which the bucket `paris` already holds two votes. -/
def tallyStateParis : LoopState :=
  { voteCounts := [("paris", { count := 2, originalAnswer := "Paris", confidence := .high })] }

/-- A deterministic full-pipeline oracle: classification asks for decomposition,
decomposition yields two sub-questions, sub-question 0 always votes Paris and
sub-question 1 always votes London, synthesis combines them. -/
def twoSubOracle : MakerOracle :=
  { classifyResp := .ok (.obj true (some 3) (some .multiHop) none)
    decomposeResp := .ok (.obj (some
      [ { id := some "sq1", question := some "What is the capital of France?"
          dependencies := some [], type := some .factual }
      , { id := some "sq2", question := some "What is the capital of England?"
          dependencies := some [], type := some .factual } ])
      (some "combine"))
    votes := fun i => fun _ =>
      .ok (.objWithAnswer (if i = 0 then "Paris" else "London") (some .high) none)
    synthResp := .ok (.obj (some "Paris and London.") none (some "high")) }

/-- An oracle that throws on the classification call. -/
def classifyFailOracle : MakerOracle :=
  { classifyResp := .error ()
    decomposeResp := .ok .nonObj
    votes := fun _ => fun _ => .ok (.objWithAnswer "Paris" (some .high) none)
    synthResp := .ok .nonObj }

/-- The result of `ask` on `twoSubOracle` with the default configuration. -/
def twoSubResult : MakerResult :=
  { answer := "Paris and London."
    confidence := .high
    consensusReached := true
    isDecomposed := true
    subQuestions :=
      [ { question := "What is the capital of France?", answer := "Paris", confidence := .high
          consensusReached := true
          votingStats := { totalVotes := 3, validVotes := 3, redFlaggedVotes := 0
                           winningVoteCount := 3, margin := 3, k := 3 } }
      , { question := "What is the capital of England?", answer := "London", confidence := .high
          consensusReached := true
          votingStats := { totalVotes := 3, validVotes := 3, redFlaggedVotes := 0
                           winningVoteCount := 3, margin := 3, k := 3 } } ]
    synthesisStrategy := "combine"
    votingStats := { totalVotes := 6, validVotes := 6, redFlaggedVotes := 0
                     winningVoteCount := 3, margin := 3, k := 3 } }

/-- The result of `ask` on `twoSubOracle` with the per-call override `k = 1`:
the per-sub-question stats carry `k = 1`, the aggregated stats revert to the
constructor default `k = 3`. -/
def twoSubResultK1 : MakerResult :=
  { answer := "Paris and London."
    confidence := .high
    consensusReached := true
    isDecomposed := true
    subQuestions :=
      [ { question := "What is the capital of France?", answer := "Paris", confidence := .high
          consensusReached := true
          votingStats := { totalVotes := 1, validVotes := 1, redFlaggedVotes := 0
                           winningVoteCount := 1, margin := 1, k := 1 } }
      , { question := "What is the capital of England?", answer := "London", confidence := .high
          consensusReached := true
          votingStats := { totalVotes := 1, validVotes := 1, redFlaggedVotes := 0
                           winningVoteCount := 1, margin := 1, k := 1 } } ]
    synthesisStrategy := "combine"
    votingStats := { totalVotes := 2, validVotes := 2, redFlaggedVotes := 0
                     winningVoteCount := 1, margin := 1, k := 3 } }

/-- A resolved sub-question record used by concrete synthesis scenarios. -/
def subQRParis : SubQuestionResult :=
  { question := "What is the capital of France?", answer := "Paris", confidence := .high
    consensusReached := true
    votingStats := { totalVotes := 3, validVotes := 3, redFlaggedVotes := 0
                     winningVoteCount := 3, margin := 3, k := 3 } }

/-- A second resolved sub-question record used by concrete synthesis scenarios. -/
def subQRLondon : SubQuestionResult :=
  { question := "What is the capital of England?", answer := "London", confidence := .medium
    consensusReached := true
    votingStats := { totalVotes := 3, validVotes := 3, redFlaggedVotes := 0
                     winningVoteCount := 3, margin := 3, k := 3 } }

theorem listMax_cons (a : Nat) (l : List Nat) : listMax (a :: l) = max a (listMax l) := rfl

theorem le_listMax {l : List Nat} {x : Nat} (h : x ∈ l) : x ≤ listMax l := by
  induction l with
  | nil => cases h
  | cons a t ih =>
    rcases List.mem_cons.mp h with rfl | hx
    · exact Nat.le_max_left _ _
    · exact Nat.le_trans (ih hx) (Nat.le_max_right _ _)

theorem listMax_le {l : List Nat} {b : Nat} (h : ∀ x ∈ l, x ≤ b) : listMax l ≤ b := by
  induction l with
  | nil => exact Nat.zero_le b
  | cons a t ih =>
    exact Nat.max_le.mpr
      ⟨h a (List.mem_cons_self a t), ih fun x hx => h x (List.mem_cons_of_mem a hx)⟩

theorem listMax_mem {l : List Nat} (h : l ≠ []) : listMax l ∈ l := by
  induction l with
  | nil => exact absurd rfl h
  | cons a t ih =>
    rcases eq_or_ne t [] with rfl | ht
    · simp [listMax]
    · rcases Nat.le_total (listMax t) a with hle | hle
      · rw [listMax_cons, Nat.max_eq_left hle]
        exact List.mem_cons_self a t
      · rw [listMax_cons, Nat.max_eq_right hle]
        exact List.mem_cons_of_mem a (ih ht)

theorem listMax_perm {l l' : List Nat} (h : l.Perm l') : listMax l = listMax l' := by
  apply Nat.le_antisymm
  · rcases eq_or_ne l [] with rfl | hl
    · exact Nat.zero_le _
    · exact le_listMax (h.mem_iff.mp (listMax_mem hl))
  · rcases eq_or_ne l' [] with rfl | hl'
    · exact Nat.zero_le _
    · exact le_listMax (h.mem_iff.mpr (listMax_mem hl'))

theorem sorted_head_listMax {a : Nat} {rest l : List Nat}
    (hs : List.Sorted natGE (a :: rest)) (hp : (a :: rest).Perm l) : a = listMax l := by
  have hrest : ∀ x ∈ rest, x ≤ a := fun x hx => (List.sorted_cons.mp hs).1 x hx
  have hmax : listMax (a :: rest) = a := by
    rw [listMax_cons, Nat.max_eq_left (listMax_le hrest)]
  rw [← listMax_perm hp, hmax]

theorem sorted_second_secondHighest {a b : Nat} {rest l : List Nat}
    (hs : List.Sorted natGE (a :: b :: rest)) (hp : (a :: b :: rest).Perm l) :
    b = secondHighest l := by
  have ha : a = listMax l := sorted_head_listMax hs hp
  have herase : (b :: rest).Perm (l.erase (listMax l)) := by
    rw [← ha]
    have h1 := hp.erase a
    rwa [List.erase_cons_head] at h1
  exact sorted_head_listMax (List.sorted_cons.mp hs).2 herase

theorem sorted_singleton_secondHighest {a : Nat} {l : List Nat}
    (hp : ([a] : List Nat).Perm l) : secondHighest l = 0 := by
  have ha : a = listMax l := sorted_head_listMax (List.sorted_singleton a) hp
  have herase : l.erase (listMax l) = [] := by
    rw [← ha]
    have h1 := (hp.symm).erase a
    rw [List.erase_cons_head] at h1
    exact h1.eq_nil
  rw [secondHighest, herase]
  rfl

theorem runnerUpOf_insertionSort (l : List Nat) :
    runnerUpOf (List.insertionSort natGE l) = secondHighest l := by
  have hs := List.sorted_insertionSort natGE l
  have hp := List.perm_insertionSort natGE l
  rcases h : List.insertionSort natGE l with _ | ⟨a, _ | ⟨b, rest⟩⟩
  · rw [h] at hp
    have : l = [] := hp.symm.eq_nil
    subst this
    rfl
  · rw [h] at hp
    exact (sorted_singleton_secondHighest hp).symm
  · rw [h] at hs hp
    exact sorted_second_secondHighest hs hp

theorem entryGE_sorted_map {s : List (String × VoteData)} (hs : List.Sorted entryGE s) :
    List.Sorted natGE (s.map fun x => x.2.count) :=
  List.Pairwise.map _ (fun _ _ h => h) hs

theorem sortedEntries_head_count {s : List (String × VoteData)} {p : String × VoteData}
    {rest : List (String × VoteData)} (h : List.insertionSort entryGE s = p :: rest) :
    p.2.count = listMax (s.map fun x => x.2.count) := by
  have hs := List.sorted_insertionSort entryGE s
  have hp := List.perm_insertionSort entryGE s
  rw [h] at hs hp
  exact sorted_head_listMax (entryGE_sorted_map hs) (by simpa using hp.map fun x => x.2.count)

theorem sortedEntries_second_count {s : List (String × VoteData)} {p q : String × VoteData}
    {rest : List (String × VoteData)} (h : List.insertionSort entryGE s = p :: q :: rest) :
    q.2.count = secondHighest (s.map fun x => x.2.count) := by
  have hs := List.sorted_insertionSort entryGE s
  have hp := List.perm_insertionSort entryGE s
  rw [h] at hs hp
  exact sorted_second_secondHighest (entryGE_sorted_map hs)
    (by simpa using hp.map fun x => x.2.count)

theorem sortedEntries_singleton_secondHighest {s : List (String × VoteData)}
    {p : String × VoteData} (h : List.insertionSort entryGE s = [p]) :
    secondHighest (s.map fun x => x.2.count) = 0 := by
  have hp := List.perm_insertionSort entryGE s
  rw [h] at hp
  exact sorted_singleton_secondHighest (by simpa using hp.map fun x => x.2.count)

theorem tallyInsert_ne_nil (counts : List (String × VoteData)) (normalized : String)
    (vote : Vote) : tallyInsert counts normalized vote ≠ [] := by
  cases counts with
  | nil => simp [tallyInsert]
  | cons hd tl =>
    obtain ⟨key, data⟩ := hd
    by_cases h : key = normalized <;> simp [tallyInsert, h]

theorem foldl_min_le_init {α : Type} [LinearOrder α] :
    ∀ (l : List α) (a : α), l.foldl min a ≤ a
  | [], a => le_refl a
  | b :: t, a => le_trans (foldl_min_le_init t (min a b)) (min_le_left a b)

theorem foldl_min_le_mem {α : Type} [LinearOrder α] :
    ∀ (l : List α) (a x : α), x ∈ l → l.foldl min a ≤ x
  | b :: t, a, x, hx => by
    rcases List.mem_cons.mp hx with rfl | hx'
    · exact le_trans (foldl_min_le_init t (min a x)) (min_le_right a x)
    · exact foldl_min_le_mem t (min a b) x hx'

theorem foldl_min_mem {α : Type} [LinearOrder α] :
    ∀ (l : List α) (a : α), l.foldl min a = a ∨ l.foldl min a ∈ l
  | [], _ => Or.inl rfl
  | b :: t, a => by
    rcases foldl_min_mem t (min a b) with h | h
    · show t.foldl min (min a b) = a ∨ t.foldl min (min a b) ∈ b :: t
      rcases le_total a b with hab | hab
      · rw [h, min_eq_left hab]
        exact Or.inl rfl
      · rw [h, min_eq_right hab]
        exact Or.inr (List.mem_cons_self b t)
    · exact Or.inr (List.mem_cons_of_mem b h)

theorem voteLoop_mono {e : VotingEngine} {f : RedFlagFilter} {o : VoteOracle}
    {fuel : Nat} {st : LoopState} {r : VotingResult}
    (h : e.voteLoop f o fuel st = some r) (extra : Nat) :
    e.voteLoop f o (fuel + extra) st = some r := by
  induction fuel generalizing st with
  | zero => simp [VotingEngine.voteLoop] at h
  | succ n ih =>
    rw [Nat.succ_add]
    rw [VotingEngine.voteLoop] at h ⊢
    cases hstep : e.voteStep f o st with
    | done r' => rw [hstep] at h; exact h
    | next st' => rw [hstep] at h; exact ih h

theorem voteStep_done_stats_k {e : VotingEngine} {f : RedFlagFilter} {o : VoteOracle}
    {st : LoopState} {r : VotingResult} (h : e.voteStep f o st = .done r) :
    r.stats.k = e.k := by
  simp only [VotingEngine.voteStep] at h
  repeat' split at h
  all_goals cases h <;> rfl

theorem voteLoop_stats_k {e : VotingEngine} {f : RedFlagFilter} {o : VoteOracle}
    {fuel : Nat} {st : LoopState} {r : VotingResult}
    (h : e.voteLoop f o fuel st = some r) : r.stats.k = e.k := by
  induction fuel generalizing st with
  | zero => simp [VotingEngine.voteLoop] at h
  | succ n ih =>
    rw [VotingEngine.voteLoop] at h
    cases hstep : e.voteStep f o st with
    | done r' =>
      rw [hstep] at h
      have hr : r' = r := Option.some.inj h
      exact hr ▸ voteStep_done_stats_k hstep
    | next st' =>
      rw [hstep] at h
      exact ih h

theorem voteLoop_none_of_isNext {e : VotingEngine} {f : RedFlagFilter} {o : VoteOracle}
    (h : ∀ st, (e.voteStep f o st).isNext = true) :
    ∀ (fuel : Nat) (st : LoopState), e.voteLoop f o fuel st = none := by
  intro fuel
  induction fuel with
  | zero => intro st; rfl
  | succ n ih =>
    intro st
    rw [VotingEngine.voteLoop]
    cases hstep : e.voteStep f o st with
    | done r =>
      have hnext := h st
      rw [hstep] at hnext
      simp [StepOutcome.isNext] at hnext
    | next st' => exact ih st'

theorem check_empty_flagged (f : RedFlagFilter) (parseSucceeded : Bool) :
    (f.check "" parseSucceeded).redFlagged = true := by
  simp [RedFlagFilter.check]

theorem voteStep_isNext_rejectAll (e : VotingEngine) (f : RedFlagFilter) (st : LoopState) :
    (e.voteStep f rejectAllOracle st).isNext = true := by
  have hv : generateVote rejectAllOracle st.voteIndex =
      { voteIndex := st.voteIndex, answer := "", confidence := .low
        parseSucceeded := some false, redFlagged := true
        redFlagReason := some .invalid_format } := rfl
  simp only [VotingEngine.voteStep, hv, Option.getD_some]
  rw [if_pos (check_empty_flagged f false)]
  rfl

theorem voteStep_isNext_emptyNormalized (e : VotingEngine) (f : RedFlagFilter)
    (st : LoopState) : (e.voteStep f emptyNormalizedOracle st).isNext = true := by
  have hv : generateVote emptyNormalizedOracle st.voteIndex =
      { voteIndex := st.voteIndex, answer := ".....", confidence := .medium
        reasoning := none, parseSucceeded := some true } := rfl
  simp only [VotingEngine.voteStep, hv, Option.getD_some]
  by_cases hf : (f.check "....." true).redFlagged = true
  · rw [if_pos hf]
    rfl
  · rw [if_neg hf, if_pos (by decide : normalizeAnswer "....." = "")]
    rfl

/-- **C1** (the claim fails on the code): for an oracle whose every sample is
red-flagged (every call throws) or whose every sample normalizes to the empty
string, `voteUntilConsensus` never stops, for every configuration and every
number of iterations — in particular it does not stop when the total sample
count reaches `maxVotes`, because the rejected-sample paths `continue` before
the safety-cutoff check is evaluated. -/
theorem voteUntilConsensus_never_stops_on_rejected_streams (e : VotingEngine)
    (f : RedFlagFilter) (fuel : Nat) :
    e.voteUntilConsensus f rejectAllOracle fuel = none ∧
    e.voteUntilConsensus f emptyNormalizedOracle fuel = none :=
  ⟨voteLoop_none_of_isNext (voteStep_isNext_rejectAll e f) fuel {},
   voteLoop_none_of_isNext (voteStep_isNext_emptyNormalized e f) fuel {}⟩

/-- **C2**: after an admitted, non-empty-normalized sample, the loop iteration
returns with consensus exactly when the leading bucket's count is at least `k`
plus the runner-up count, and in that case the winner, confidence and margin
come from the first bucket attaining the maximum; moreover the continuous
Paris/London/Paris/Paris scenario at `k = 2` stops after exactly 4 samples with
winner "Paris" and margin 2. -/
theorem voteStep_first_to_ahead_by_k :
    (∀ (e : VotingEngine) (f : RedFlagFilter) (o : VoteOracle) (st : LoopState)
        (v : Vote) (tc : List (String × VoteData)) (mc ru : Nat),
      v = generateVote o st.voteIndex →
      (f.check v.answer (v.parseSucceeded.getD true)).redFlagged = false →
      normalizeAnswer v.answer ≠ "" →
      tc = tallyInsert st.voteCounts (normalizeAnswer v.answer) v →
      mc = listMax (tc.map fun x => x.2.count) →
      ru = secondHighest (tc.map fun x => x.2.count) →
      (((∃ r, e.voteStep f o st = .done r ∧ r.consensusReached = true) ↔
          e.k + ru ≤ mc) ∧
       (e.k + ru ≤ mc →
         ∃ key data,
           tc.find? (fun x => x.2.count == mc) = some (key, data) ∧
           e.voteStep f o st = .done
             { consensusReached := true
               winner := some data.originalAnswer
               confidence := some data.confidence
               stats := { totalVotes := st.allVotes.length + 1
                          validVotes := st.validVoteCount + 1
                          redFlaggedVotes := st.allVotes.length + 1 -
                            (st.validVoteCount + 1)
                          winningVoteCount := mc
                          margin := (mc : Int) - (ru : Int)
                          k := e.k } }))) ∧
    (∀ extra : Nat,
      engineK2.voteUntilConsensus defaultRedFlagFilter parisOracle (4 + extra) =
        some parisConsensusResult) ∧
    engineK2.voteUntilConsensus defaultRedFlagFilter parisOracle 3 = none := by
  refine ⟨?_, ?_, by decide⟩
  · intro e f o st v tc mc ru hv hflag hne htc hmc hru
    subst hv htc hmc hru
    simp only [VotingEngine.voteStep]
    rw [if_neg (by simp [hflag])]
    rw [if_neg hne]
    have hnil := tallyInsert_ne_nil st.voteCounts
      (normalizeAnswer (generateVote o st.voteIndex).answer) (generateVote o st.voteIndex)
    rw [if_neg (by simp [List.isEmpty_iff, hnil])]
    rw [runnerUpOf_insertionSort]
    by_cases hcond : e.k +
        secondHighest ((tallyInsert st.voteCounts
          (normalizeAnswer (generateVote o st.voteIndex).answer)
          (generateVote o st.voteIndex)).map fun x => x.2.count) ≤
        listMax ((tallyInsert st.voteCounts
          (normalizeAnswer (generateVote o st.voteIndex).answer)
          (generateVote o st.voteIndex)).map fun x => x.2.count)
    · rw [if_pos hcond]
      have hmaxmem : listMax ((tallyInsert st.voteCounts
          (normalizeAnswer (generateVote o st.voteIndex).answer)
          (generateVote o st.voteIndex)).map fun x => x.2.count) ∈
          (tallyInsert st.voteCounts
            (normalizeAnswer (generateVote o st.voteIndex).answer)
            (generateVote o st.voteIndex)).map fun x => x.2.count :=
        listMax_mem (by simp [hnil])
      obtain ⟨x, hx, hxc⟩ := List.mem_map.mp hmaxmem
      have hsome : ((tallyInsert st.voteCounts
          (normalizeAnswer (generateVote o st.voteIndex).answer)
          (generateVote o st.voteIndex)).find? fun x => x.2.count ==
            listMax ((tallyInsert st.voteCounts
              (normalizeAnswer (generateVote o st.voteIndex).answer)
              (generateVote o st.voteIndex)).map fun x => x.2.count)).isSome := by
        rw [List.find?_isSome]
        exact ⟨x, hx, by simp [hxc]⟩
      obtain ⟨pr, hfind⟩ := Option.isSome_iff_exists.mp hsome
      obtain ⟨key, data⟩ := pr
      rw [hfind]
      refine ⟨⟨fun _ => hcond, fun _ => ⟨_, rfl, rfl⟩⟩, fun _ => ⟨key, data, rfl, ?_⟩⟩
      simp [List.length_append]
    · rw [if_neg hcond]
      refine ⟨⟨?_, fun hc => absurd hc hcond⟩, fun hc => absurd hc hcond⟩
      rintro ⟨r, hr, hrc⟩
      split at hr
      · split at hr <;> (cases hr; simp at hrc)
      · cases hr
  · intro extra
    exact voteLoop_mono
      (by decide :
        engineK2.voteLoop defaultRedFlagFilter parisOracle 4 {} = some parisConsensusResult)
      extra

/-- Witness for the first-to-ahead-by-K characterization at a concrete admitted
sample: a third Paris vote joins a bucket of two at `k = 2` and consensus fires. -/
theorem voteStep_first_to_ahead_by_k_witness :
    ((∃ r, engineK2.voteStep defaultRedFlagFilter parisOracle tallyStateParis = .done r ∧
        r.consensusReached = true) ↔ engineK2.k + 0 ≤ 3) ∧
    (engineK2.k + 0 ≤ 3 →
      ∃ key data,
        (([("paris", { count := 3, originalAnswer := "Paris", confidence := .high })] :
            List (String × VoteData)).find? fun x => x.2.count == 3) = some (key, data) ∧
        engineK2.voteStep defaultRedFlagFilter parisOracle tallyStateParis = .done
          { consensusReached := true
            winner := some data.originalAnswer
            confidence := some data.confidence
            stats := { totalVotes := tallyStateParis.allVotes.length + 1
                       validVotes := tallyStateParis.validVoteCount + 1
                       redFlaggedVotes := tallyStateParis.allVotes.length + 1 -
                         (tallyStateParis.validVoteCount + 1)
                       winningVoteCount := 3
                       margin := (3 : Int) - (0 : Int)
                       k := engineK2.k } }) :=
  voteStep_first_to_ahead_by_k.1 engineK2 defaultRedFlagFilter parisOracle tallyStateParis
    { voteIndex := 0, answer := "Paris", confidence := .high, parseSucceeded := some true }
    [("paris", { count := 3, originalAnswer := "Paris", confidence := .high })] 3 0
    (by decide) (by decide) (by decide) (by decide) (by decide) (by decide)

/-- **C3**: one-shot scoring of `determineWinner` — with at least two distinct
normalized answers remaining after discarding red-flagged and empty-normalized
votes, consensus holds iff the highest count leads the second-highest by at
least `k`; with exactly one distinct answer, iff its count is at least `k`; and
the reported `winningVoteCount`/`margin` are the highest count and its lead. -/
theorem determineWinner_scoring (e : VotingEngine) (votes : List Vote)
    (r : VotingResult) (buckets : List (String × VoteData))
    (hr : r = e.determineWinner votes)
    (hb : buckets = countVotes (votes.filter fun v => !v.redFlagged)) :
    (2 ≤ buckets.length →
      (r.consensusReached = true ↔
        (e.k : Int) ≤ (listMax (buckets.map fun x => x.2.count) : Int) -
          (secondHighest (buckets.map fun x => x.2.count) : Int))) ∧
    (buckets.length = 1 →
      (r.consensusReached = true ↔ e.k ≤ listMax (buckets.map fun x => x.2.count))) ∧
    r.stats.winningVoteCount = listMax (buckets.map fun x => x.2.count) ∧
    r.stats.margin = (listMax (buckets.map fun x => x.2.count) : Int) -
      (secondHighest (buckets.map fun x => x.2.count) : Int) := by
  subst hr hb
  simp only [VotingEngine.determineWinner]
  by_cases hempty : (votes.filter fun v => !v.redFlagged).isEmpty = true
  · rw [if_pos hempty]
    have hnil : votes.filter (fun v => !v.redFlagged) = [] := List.isEmpty_iff.mp hempty
    rw [hnil]
    exact ⟨fun h2 => absurd h2 (by simp [countVotes]),
           fun h1 => absurd h1 (by simp [countVotes]), rfl, rfl⟩
  · rw [if_neg hempty]
    rcases hs : List.insertionSort entryGE
        (countVotes (votes.filter fun v => !v.redFlagged)) with _ | ⟨⟨key, w⟩, rest⟩
    · have hbnil : countVotes (votes.filter fun v => !v.redFlagged) = [] := by
        have hp := List.perm_insertionSort entryGE
          (countVotes (votes.filter fun v => !v.redFlagged))
        rw [hs] at hp
        exact hp.symm.eq_nil
      rw [hbnil]
      exact ⟨fun h2 => absurd h2 (by simp), fun h1 => absurd h1 (by simp), rfl, rfl⟩
    · rcases rest with _ | ⟨⟨key2, ruD⟩, rest2⟩
      · have hw : w.count = listMax ((countVotes
            (votes.filter fun v => !v.redFlagged)).map fun x => x.2.count) :=
          sortedEntries_head_count hs
        have hsec : secondHighest ((countVotes
            (votes.filter fun v => !v.redFlagged)).map fun x => x.2.count) = 0 :=
          sortedEntries_singleton_secondHighest hs
        have hlen : (countVotes (votes.filter fun v => !v.redFlagged)).length = 1 := by
          have hp := List.perm_insertionSort entryGE
            (countVotes (votes.filter fun v => !v.redFlagged))
          rw [hs] at hp
          simpa using hp.symm.length_eq
        refine ⟨fun h2 => absurd h2 (by omega), fun _ => ?_, ?_, ?_⟩
        · rw [← hw]
          exact decide_eq_true_iff
        · exact hw
        · rw [← hw, hsec]
          rfl
      · have hw : w.count = listMax ((countVotes
            (votes.filter fun v => !v.redFlagged)).map fun x => x.2.count) :=
          sortedEntries_head_count hs
        have hsec : ruD.count = secondHighest ((countVotes
            (votes.filter fun v => !v.redFlagged)).map fun x => x.2.count) :=
          sortedEntries_second_count hs
        have hlen : 2 ≤ (countVotes (votes.filter fun v => !v.redFlagged)).length := by
          have hp := List.perm_insertionSort entryGE
            (countVotes (votes.filter fun v => !v.redFlagged))
          rw [hs] at hp
          have hq := hp.symm.length_eq
          simp at hq
          omega
        refine ⟨fun _ => ?_, fun h1 => absurd h1 (by omega), ?_, ?_⟩
        · rw [← hw, ← hsec]
          exact decide_eq_true_iff
        · exact hw
        · rw [← hw, ← hsec]
          rfl

/-- Witness for the one-shot scoring on the Paris, Paris, Paris, London vote
multiset at `k = 2`: two distinct answers remain and consensus holds. -/
theorem determineWinner_scoring_witness :
    (engineK2.determineWinner parisVotes).consensusReached = true ↔
      (engineK2.k : Int) ≤
        (listMax ((countVotes (parisVotes.filter fun v => !v.redFlagged)).map fun x =>
            x.2.count) : Int) -
          (secondHighest ((countVotes (parisVotes.filter fun v => !v.redFlagged)).map fun x =>
            x.2.count) : Int) :=
  (determineWinner_scoring engineK2 parisVotes _ _ rfl rfl).1 (by decide)

theorem lowerChar_not_upper (c : Char) :
    ¬(65 ≤ (lowerChar c).toNat ∧ (lowerChar c).toNat ≤ 90) := by
  unfold lowerChar
  by_cases h : 65 ≤ c.toNat ∧ c.toNat ≤ 90
  · rw [if_pos h]
    have hv : (Char.ofNat (c.toNat + 32)).toNat = c.toNat + 32 := by
      unfold Char.ofNat
      rw [dif_pos (Or.inl (by omega))]
      rfl
    rw [hv]
    omega
  · rw [if_neg h]
    exact h

theorem lowerChar_idem (c : Char) : lowerChar (lowerChar c) = lowerChar c := by
  have h := lowerChar_not_upper c
  have hrw : lowerChar (lowerChar c) =
      if 65 ≤ (lowerChar c).toNat ∧ (lowerChar c).toNat ≤ 90 then
        Char.ofNat ((lowerChar c).toNat + 32)
      else lowerChar c := rfl
  rw [hrw, if_neg h]

theorem lowerChar_space : lowerChar ' ' = ' ' := by decide

theorem listMap_id {l : List Char} {f : Char → Char} (h : ∀ c ∈ l, f c = c) :
    l.map f = l := by
  induction l with
  | nil => rfl
  | cons a t ih =>
    rw [List.map_cons, h a (List.mem_cons_self a t),
      ih fun c hc => h c (List.mem_cons_of_mem a hc)]

theorem head?_dropWhile_false (p : Char → Bool) :
    ∀ (l : List Char) (c : Char), (l.dropWhile p).head? = some c → p c = false
  | [], c, h => by cases h
  | a :: t, c, h => by
    rw [List.dropWhile_cons] at h
    by_cases ha : p a = true
    · rw [if_pos ha] at h
      exact head?_dropWhile_false p t c h
    · rw [if_neg ha] at h
      have hac : a = c := Option.some.inj h
      subst hac
      simpa using ha

theorem dropWhile_eq_self_of_head? (p : Char → Bool) :
    ∀ (l : List Char), (∀ c, l.head? = some c → p c = false) → l.dropWhile p = l
  | [], _ => rfl
  | a :: t, h => by
    rw [List.dropWhile_cons, if_neg (by simp [h a rfl])]

theorem stripTrailingPunct_pre (l : List Char) : stripTrailingPunct l <+: l := by
  have hsuf : l.reverse.dropWhile isPunctChar <:+ l.reverse := List.dropWhile_suffix _
  have hpre := List.reverse_prefix.mpr hsuf
  simpa using hpre

theorem trimChars_pre (l : List Char) : trimChars l <+: l.dropWhile isWsChar := by
  have hsuf : (l.dropWhile isWsChar).reverse.dropWhile isWsChar <:+
      (l.dropWhile isWsChar).reverse := List.dropWhile_suffix _
  have hpre := List.reverse_prefix.mpr hsuf
  simpa [trimChars] using hpre

theorem trimChars_sublist (l : List Char) : List.Sublist (trimChars l) l :=
  ((trimChars_pre l).sublist).trans (List.dropWhile_sublist _)

theorem head?_of_pre {l₁ l₂ : List Char} (h : l₁ <+: l₂) (hne : l₁ ≠ []) :
    l₂.head? = l₁.head? := by
  obtain ⟨t, rfl⟩ := h
  cases l₁ with
  | nil => exact absurd rfl hne
  | cons a l => rfl

theorem collapseWs_ne_nil : ∀ (l : List Char), l ≠ [] → collapseWs l ≠ []
  | [], h => absurd rfl h
  | [a], _ => by
    simp only [collapseWs]
    by_cases ha : isWsChar a = true
    · rw [if_pos ha]
      simp
    · rw [if_neg ha]
      simp
  | a :: b :: rest, _ => by
    simp only [collapseWs]
    by_cases hab : (isWsChar a && isWsChar b) = true
    · rw [if_pos hab]
      exact collapseWs_ne_nil (b :: rest) (by simp)
    · rw [if_neg hab]
      simp

theorem collapseWs_head_of_not_ws {b : Char} (rest : List Char) (hb : isWsChar b = false) :
    collapseWs (b :: rest) = b :: collapseWs rest := by
  cases rest with
  | nil =>
    simp only [collapseWs]
    rw [if_neg (by simp [hb])]
  | cons r rs =>
    simp only [collapseWs]
    rw [if_neg (by simp [hb]), if_neg (by simp [hb])]

theorem mem_collapseWs : ∀ (l : List Char) (c : Char), c ∈ collapseWs l → c ∈ l ∨ c = ' '
  | [], c, h => by cases h
  | [a], c, h => by
    simp only [collapseWs] at h
    by_cases ha : isWsChar a = true
    · rw [if_pos ha] at h
      right
      simpa using h
    · rw [if_neg ha] at h
      left
      simpa using h
  | a :: b :: rest, c, h => by
    simp only [collapseWs] at h
    by_cases hab : (isWsChar a && isWsChar b) = true
    · rw [if_pos hab] at h
      rcases mem_collapseWs (b :: rest) c h with h' | h'
      · exact Or.inl (List.mem_cons_of_mem a h')
      · exact Or.inr h'
    · rw [if_neg hab] at h
      rcases List.mem_cons.mp h with rfl | h'
      · by_cases ha : isWsChar a = true
        · rw [if_pos ha]
          exact Or.inr rfl
        · rw [if_neg ha]
          exact Or.inl (List.mem_cons_self a _)
      · rcases mem_collapseWs (b :: rest) c h' with h'' | h''
        · exact Or.inl (List.mem_cons_of_mem a h'')
        · exact Or.inr h''

theorem collapseWs_ws_space : ∀ (l : List Char) (c : Char),
    c ∈ collapseWs l → isWsChar c = true → c = ' '
  | [], c, h, _ => by cases h
  | [a], c, h, hc => by
    simp only [collapseWs] at h
    by_cases ha : isWsChar a = true
    · rw [if_pos ha] at h
      simpa using h
    · rw [if_neg ha] at h
      have : c = a := by simpa using h
      subst this
      exact absurd hc (by simp [ha])
  | a :: b :: rest, c, h, hc => by
    simp only [collapseWs] at h
    by_cases hab : (isWsChar a && isWsChar b) = true
    · rw [if_pos hab] at h
      exact collapseWs_ws_space (b :: rest) c h hc
    · rw [if_neg hab] at h
      rcases List.mem_cons.mp h with rfl | h'
      · by_cases ha : isWsChar a = true
        · rw [if_pos ha]
        · rw [if_neg ha] at hc ⊢
          exact absurd hc (by simp [ha])
      · exact collapseWs_ws_space (b :: rest) c h' hc

theorem collapseWs_chain : ∀ (l : List Char), List.Chain' notTwoWs (collapseWs l)
  | [] => List.chain'_nil
  | [a] => by
    simp only [collapseWs]
    by_cases ha : isWsChar a = true
    · rw [if_pos ha]
      exact List.chain'_singleton _
    · rw [if_neg ha]
      exact List.chain'_singleton _
  | a :: b :: rest => by
    simp only [collapseWs]
    by_cases hab : (isWsChar a && isWsChar b) = true
    · rw [if_pos hab]
      exact collapseWs_chain (b :: rest)
    · rw [if_neg hab]
      rw [List.chain'_cons']
      refine ⟨?_, collapseWs_chain (b :: rest)⟩
      intro y hy
      by_cases ha : isWsChar a = true
      · rw [if_pos ha]
        have hb : isWsChar b = false := by
          cases hisb : isWsChar b
          · rfl
          · exact absurd (by simp [ha, hisb]) hab
        rw [collapseWs_head_of_not_ws rest hb] at hy
        have hyb : b = y := by simpa using hy
        subst hyb
        intro hcontra
        rw [hb] at hcontra
        exact Bool.noConfusion hcontra.2
      · rw [if_neg ha]
        intro hcontra
        exact ha hcontra.1

theorem collapseWs_eq_self : ∀ (l : List Char),
    (∀ c ∈ l, isWsChar c = true → c = ' ') → List.Chain' notTwoWs l → collapseWs l = l
  | [], _, _ => rfl
  | [a], hws, _ => by
    simp only [collapseWs]
    by_cases ha : isWsChar a = true
    · rw [if_pos ha, hws a (List.mem_cons_self a _) ha]
    · rw [if_neg ha]
  | a :: b :: rest, hws, hchain => by
    simp only [collapseWs]
    have hab : ¬(isWsChar a && isWsChar b) = true := by
      intro hcontra
      exact (List.chain'_cons.mp hchain).1
        ⟨(Bool.and_eq_true _ _ ▸ hcontra).1, (Bool.and_eq_true _ _ ▸ hcontra).2⟩
    rw [if_neg hab]
    have htail := collapseWs_eq_self (b :: rest)
      (fun c hc => hws c (List.mem_cons_of_mem a hc)) (List.chain'_cons.mp hchain).2
    rw [htail]
    by_cases ha : isWsChar a = true
    · rw [if_pos ha, hws a (List.mem_cons_self a _) ha]
    · rw [if_neg ha]

theorem normalize_core_eq_self {t : List Char}
    (hlower : ∀ c ∈ t, lowerChar c = c)
    (hws : ∀ c ∈ t, isWsChar c = true → c = ' ')
    (hchain : List.Chain' notTwoWs t)
    (hhead : ∀ c, t.head? = some c → isWsChar c = false)
    (hlast : ∀ c, t.getLast? = some c → isWsChar c = false)
    (hpunct : ∀ c, t.getLast? = some c → isPunctChar c = false) :
    stripTrailingPunct (collapseWs (trimChars (t.map lowerChar))) = t := by
  rw [listMap_id hlower]
  have htriml : t.dropWhile isWsChar = t :=
    dropWhile_eq_self_of_head? _ t hhead
  have htrimr : t.reverse.dropWhile isWsChar = t.reverse := by
    apply dropWhile_eq_self_of_head?
    intro c hc
    rw [List.head?_reverse] at hc
    exact hlast c hc
  have htrim : trimChars t = t := by
    rw [trimChars, htriml, htrimr, List.reverse_reverse]
  rw [htrim, collapseWs_eq_self t hws hchain]
  have hstrip : t.reverse.dropWhile isPunctChar = t.reverse := by
    apply dropWhile_eq_self_of_head?
    intro c hc
    rw [List.head?_reverse] at hc
    exact hpunct c hc
  rw [stripTrailingPunct, hstrip, List.reverse_reverse]

theorem normalizeAnswer_data_facts (d : List Char) :
    (∀ c ∈ stripTrailingPunct (collapseWs (trimChars (d.map lowerChar))), lowerChar c = c) ∧
    (∀ c ∈ stripTrailingPunct (collapseWs (trimChars (d.map lowerChar))),
      isWsChar c = true → c = ' ') ∧
    List.Chain' notTwoWs (stripTrailingPunct (collapseWs (trimChars (d.map lowerChar)))) ∧
    (∀ c, (stripTrailingPunct (collapseWs (trimChars (d.map lowerChar)))).head? = some c →
      isWsChar c = false) ∧
    (∀ c, (stripTrailingPunct (collapseWs (trimChars (d.map lowerChar)))).getLast? = some c →
      isPunctChar c = false) := by
  have hsubw : ∀ c ∈ stripTrailingPunct (collapseWs (trimChars (d.map lowerChar))),
      c ∈ collapseWs (trimChars (d.map lowerChar)) :=
    fun c hc => (stripTrailingPunct_pre _).sublist.subset hc
  refine ⟨?_, ?_, ?_, ?_, ?_⟩
  · intro c hc
    rcases mem_collapseWs _ c (hsubw c hc) with hmem | hsp
    · have hm : c ∈ d.map lowerChar := (trimChars_sublist _).subset hmem
      obtain ⟨e, _, he⟩ := List.mem_map.mp hm
      rw [← he, lowerChar_idem]
    · rw [hsp]
      exact lowerChar_space
  · intro c hc hwsc
    exact collapseWs_ws_space _ c (hsubw c hc) hwsc
  · obtain ⟨r, hrapp⟩ := stripTrailingPunct_pre (collapseWs (trimChars (d.map lowerChar)))
    have hch := collapseWs_chain (trimChars (d.map lowerChar))
    rw [← hrapp] at hch
    exact hch.left_of_append
  · intro c hc
    rcases hv : trimChars (d.map lowerChar) with _ | ⟨b, v'⟩
    · rw [hv] at hc
      simp [collapseWs, stripTrailingPunct] at hc
    · have hbw : isWsChar b = false := by
        have hvne : trimChars (d.map lowerChar) ≠ [] := by rw [hv]; simp
        have hh := head?_of_pre (trimChars_pre (d.map lowerChar)) hvne
        rw [hv] at hh
        exact head?_dropWhile_false isWsChar _ b (by simpa using hh)
      rw [hv, collapseWs_head_of_not_ws v' hbw] at hc
      have hne2 : stripTrailingPunct (b :: collapseWs v') ≠ [] := by
        intro hnil
        rw [hnil] at hc
        cases hc
      have hw := head?_of_pre (stripTrailingPunct_pre (b :: collapseWs v')) hne2
      rw [hc] at hw
      have hbc : b = c := Option.some.inj hw
      subst hbc
      exact hbw
  · intro c hc
    rw [stripTrailingPunct, List.getLast?_reverse] at hc
    exact head?_dropWhile_false isPunctChar _ c hc

theorem normalizeAnswer_mk_eq {t : List Char}
    (hlower : ∀ c ∈ t, lowerChar c = c)
    (hws : ∀ c ∈ t, isWsChar c = true → c = ' ')
    (hchain : List.Chain' notTwoWs t)
    (hhead : ∀ c, t.head? = some c → isWsChar c = false)
    (hlast : ∀ c, t.getLast? = some c → isWsChar c = false)
    (hpunct : ∀ c, t.getLast? = some c → isPunctChar c = false) :
    normalizeAnswer ⟨t⟩ = ⟨t⟩ := by
  cases t with
  | nil => rfl
  | cons c0 ts =>
    rw [normalizeAnswer,
      if_neg (by intro hc; simpa using congrArg String.data hc)]
    exact congrArg String.mk
      (normalize_core_eq_self hlower hws hchain hhead hlast hpunct)

/-- **C5 counterexample**: the string `a .` refutes unconditional idempotence —
stripping the trailing punctuation run exposes a trailing space, so
`normalizeAnswer "a ." = "a "` while renormalizing gives `"a"`. -/
theorem normalizeAnswer_not_idempotent_at :
    normalizeAnswer (normalizeAnswer "a .") ≠ normalizeAnswer "a ." := by decide

/-- **C5 amended**: normalization is idempotent on every string whose normalized
form does not end in whitespace (stripping trailing punctuation can expose a
trailing space, which a second pass then trims away), and the advertised
case/whitespace/trailing-punctuation equalities all hold. -/
theorem normalizeAnswer_conditional_idempotent :
    (∀ s : String, endsInWs (normalizeAnswer s) = false →
      normalizeAnswer (normalizeAnswer s) = normalizeAnswer s) ∧
    (normalizeAnswer "Paris" = normalizeAnswer "PARIS" ∧
     normalizeAnswer "PARIS" = normalizeAnswer "  Paris  " ∧
     normalizeAnswer "  Paris  " = normalizeAnswer "Paris." ∧
     normalizeAnswer "Paris." = normalizeAnswer "Paris!") := by
  refine ⟨?_, by decide, by decide, by decide, by decide⟩
  intro s h
  by_cases hs : s = ""
  · subst hs
    rfl
  · have hrepr : normalizeAnswer s =
        ⟨stripTrailingPunct (collapseWs (trimChars (s.data.map lowerChar)))⟩ := by
      rw [normalizeAnswer, if_neg hs]
    rw [hrepr] at h ⊢
    obtain ⟨f1, f2, f3, f4, f5⟩ := normalizeAnswer_data_facts s.data
    refine normalizeAnswer_mk_eq f1 f2 f3 f4 ?_ f5
    intro c hc
    rw [endsInWs] at h
    rw [show (⟨stripTrailingPunct (collapseWs (trimChars (s.data.map lowerChar)))⟩ :
        String).data = stripTrailingPunct (collapseWs (trimChars (s.data.map lowerChar)))
        from rfl, hc] at h
    exact h

/-- Witness for the conditional idempotence at `Paris.`, whose normalization
`paris` has no trailing whitespace. -/
theorem normalizeAnswer_conditional_idempotent_witness :
    normalizeAnswer (normalizeAnswer "Paris.") = normalizeAnswer "Paris." :=
  normalizeAnswer_conditional_idempotent.1 "Paris." (by decide)

/-- **C6 counterexample**: at the two-character answer `ab`, a parse failure is
flagged `response_too_short`, not `invalid_format` — the length checks
short-circuit first. -/
theorem check_parse_failure_short_answer :
    (RedFlagFilter.ofConfig {}).check "ab" false =
      { redFlagged := true, reason := some .response_too_short } ∧
    ((RedFlagFilter.ofConfig {}).check "ab" false).reason ≠ some .invalid_format :=
  ⟨by decide, by decide⟩

/-- **C6 amended**: `check(answer, parseSucceeded = false)` is always red-flagged,
but the reason is `invalid_format` only when the answer passes the earlier
length checks (non-empty, estimated tokens within `maxTokens`, trimmed length at
least `minChars`); shorter or longer answers get the length-based reason that
fires first. -/
theorem check_parse_failure_flagged (f : RedFlagFilter) (answer : String) :
    ((f.check answer false).redFlagged = true) ∧
    (answer ≠ "" →
      ((trimChars answer.data).length + 3) / 4 ≤ f.maxTokens →
      f.minChars ≤ (trimChars answer.data).length →
      (f.check answer false).reason = some .invalid_format) := by
  constructor
  · simp only [RedFlagFilter.check]
    by_cases h0 : answer = ""
    · rw [if_pos h0]
    · rw [if_neg h0]
      by_cases h1 : f.maxTokens < ((trimChars answer.data).length + 3) / 4
      · rw [if_pos h1]
      · rw [if_neg h1]
        by_cases h2 : (trimChars answer.data).length < f.minChars
        · rw [if_pos h2]
        · rw [if_neg h2, if_pos trivial]
  · intro h0 h1 h2
    simp only [RedFlagFilter.check]
    rw [if_neg h0, if_neg (by omega), if_neg (by omega), if_pos trivial]

/-- Witness for the amended parse-failure behaviour at `Paris`, which passes
both length checks and is flagged `invalid_format`. -/
theorem check_parse_failure_flagged_witness :
    ((RedFlagFilter.ofConfig {}).check "Paris" false).redFlagged = true ∧
    ((RedFlagFilter.ofConfig {}).check "Paris" false).reason = some .invalid_format :=
  ⟨(check_parse_failure_flagged (RedFlagFilter.ofConfig {}) "Paris").1,
   (check_parse_failure_flagged (RedFlagFilter.ofConfig {}) "Paris").2 (by decide) (by decide)
     (by decide)⟩

/-- **C8**: synthesis degenerate cases — zero sub-results yield the fixed
fallback answer at confidence `low`; exactly one sub-result, or synthesis
disabled, passes the (first) sub-result's answer and confidence through
unchanged; all without any oracle call (call count 0, result independent of the
oracle). -/
theorem synthesize_degenerate (s : Synthesizer) (oracle : MakerOracle) (question : String) :
    (s.synthesize oracle question [] = .ok (("Unable to determine answer.", .low), 0)) ∧
    (∀ sa : SubQuestionResult,
      s.synthesize oracle question [sa] = .ok ((sa.answer, sa.confidence), 0)) ∧
    (∀ subAnswers : List SubQuestionResult, s.enabled = false → subAnswers ≠ [] →
      ∃ sa, subAnswers.head? = some sa ∧
        s.synthesize oracle question subAnswers = .ok ((sa.answer, sa.confidence), 0)) := by
  refine ⟨?_, ?_, ?_⟩
  · simp [Synthesizer.synthesize]
  · intro sa
    by_cases he : s.enabled
    · simp [Synthesizer.synthesize, he]
    · simp [Synthesizer.synthesize, he]
  · intro subAnswers hdis hne
    cases subAnswers with
    | nil => exact absurd rfl hne
    | cons sa rest =>
      refine ⟨sa, rfl, ?_⟩
      simp [Synthesizer.synthesize, hdis]

/-- Witness for the disabled-synthesis passthrough on two sub-results: the first
sub-result's answer and confidence come back unchanged with zero oracle calls. -/
theorem synthesize_degenerate_witness :
    (Synthesizer.ofConfig { enabled := some false }).synthesize twoSubOracle "q"
        [subQRParis, subQRLondon] = .ok ((subQRParis.answer, subQRParis.confidence), 0) := by
  obtain ⟨sa, hhead, hres⟩ :=
    (synthesize_degenerate (Synthesizer.ofConfig { enabled := some false })
      twoSubOracle "q").2.2 [subQRParis, subQRLondon] rfl (by simp)
  have hsa : subQRParis = sa := Option.some.inj hhead
  rw [← hsa] at hres
  exact hres

/-- **C9**: with decomposition disabled, `decompose` makes zero oracle calls and
returns exactly one sub-question wrapping the input verbatim (id `sq1`, no
dependencies, type `factual`, index 0), strategy `none`, and a synthetic
classification with `needsDecomposition = false` (complexity 1). -/
theorem decompose_disabled (config : DecompositionConfig) (oracle : MakerOracle)
    (question : String) (context : Option String) (henabled : config.enabled = some false) :
    (Decomposer.ofConfig config).decompose oracle question context =
      .ok ({ subQuestions := [{ id := "sq1", question := question, dependencies := []
                                type := .factual, index := 0 }]
             synthesisStrategy := "none"
             classification := { needsDecomposition := false, complexity := 1
                                 questionType := .factual, reasoning := none } }, 0) := by
  have he : (Decomposer.ofConfig config).enabled = false := by
    simp [Decomposer.ofConfig, henabled]
  simp [Decomposer.decompose, he, Decomposer.createSingleSubQuestion]

/-- Witness for the disabled-decomposition case at a concrete question and a
concrete oracle: the plan is the verbatim single sub-question, zero calls. -/
theorem decompose_disabled_witness :
    (Decomposer.ofConfig { enabled := some false }).decompose twoSubOracle
        "What is the capital of France?" none =
      .ok ({ subQuestions := [{ id := "sq1", question := "What is the capital of France?"
                                dependencies := [], type := .factual, index := 0 }]
             synthesisStrategy := "none"
             classification := { needsDecomposition := false, complexity := 1
                                 questionType := .factual, reasoning := none } }, 0) :=
  decompose_disabled { enabled := some false } twoSubOracle
    "What is the capital of France?" none rfl

theorem classify_no_error {d : Decomposer} {oracle : MakerOracle} {question : String}
    {context : Option String} (h : oracle.classifyResp.isOk = true) (e : Unit) :
    d.classify oracle question context ≠ .error e := by
  unfold Decomposer.classify
  cases d.classifier with
  | some cl => simp
  | none =>
    cases hcr : oracle.classifyResp with
    | error e' =>
      rw [hcr] at h
      simp [Except.isOk, Except.toBool] at h
    | ok resp => simp

theorem decompose_no_error {d : Decomposer} {oracle : MakerOracle} {question : String}
    {context : Option String} (h1 : oracle.classifyResp.isOk = true)
    (h2 : oracle.decomposeResp.isOk = true) (e : Unit) :
    d.decompose oracle question context ≠ .error e := by
  unfold Decomposer.decompose
  by_cases hen : (!d.enabled) = true
  · rw [if_pos hen]
    simp
  · rw [if_neg hen]
    cases hcl : d.classify oracle question context with
    | error e' => exact absurd hcl (classify_no_error h1 e')
    | ok p =>
      obtain ⟨classification, calls⟩ := p
      simp only [hcl]
      intro hcontra
      split at hcontra
      · cases hcontra
      · cases hdr : oracle.decomposeResp with
        | error e' =>
          rw [hdr] at h2
          simp [Except.isOk, Except.toBool] at h2
        | ok resp =>
          simp only [hdr] at hcontra
          split at hcontra <;> split at hcontra <;> cases hcontra

theorem synthesize_no_error {s : Synthesizer} {oracle : MakerOracle} {question : String}
    {subAnswers : List SubQuestionResult} (h : oracle.synthResp.isOk = true) (e : Unit) :
    s.synthesize oracle question subAnswers ≠ .error e := by
  unfold Synthesizer.synthesize
  by_cases hc : ((!s.enabled) = true ∨ subAnswers.isEmpty = true)
  · rw [if_pos hc]
    simp
  · rw [if_neg hc]
    cases subAnswers with
    | nil => exact absurd (Or.inr rfl) hc
    | cons sa rest =>
      cases rest with
      | nil => simp
      | cons sb rest2 =>
        cases hsr : oracle.synthResp with
        | error e' =>
          rw [hsr] at h
          simp [Except.isOk, Except.toBool] at h
        | ok resp => simp

theorem ask_ok_inversion {m : Maker} {oracle : MakerOracle} {question : String}
    {options : AskOptions} {fuel : Nat} {res : MakerResult}
    (h : m.ask oracle question options fuel = some (.ok res)) :
    ∃ dec calls subResults synth scalls,
      m.decomposer.decompose oracle question options.context = .ok (dec, calls) ∧
      m.runAll oracle options fuel 0 dec.subQuestions = some subResults ∧
      m.synthesizer.synthesize oracle question subResults = .ok (synth, scalls) ∧
      res = m.buildResult dec subResults synth := by
  unfold Maker.ask at h
  cases hd : m.decomposer.decompose oracle question options.context with
  | error e => simp only [hd] at h; cases h
  | ok p =>
    obtain ⟨dec, calls⟩ := p
    simp only [hd] at h
    cases hr : m.runAll oracle options fuel 0 dec.subQuestions with
    | none => simp only [hr] at h; cases h
    | some subResults =>
      simp only [hr] at h
      cases hsy : m.synthesizer.synthesize oracle question subResults with
      | error e => simp only [hsy] at h; cases h
      | ok q =>
        obtain ⟨synth, scalls⟩ := q
        simp only [hsy] at h
        have hres := Except.ok.inj (Option.some.inj h)
        exact ⟨dec, calls, subResults, synth, scalls, rfl, hr, hsy, hres.symm⟩

/-- **C4 counterexample**: an oracle that throws during classification makes
`ask` reject with the propagated exception rather than resolve. -/
theorem ask_rejects_on_classification_throw :
    (Maker.ofConfig {}).ask classifyFailOracle "What is the capital of France?" {} 0 =
      some (.error ()) := by decide

/-- **C4 amended**: `ask` resolves to a result (never an exception) whenever the
oracle calls made for classification, decomposition and synthesis succeed —
oracle throws during vote generation are converted into red-flagged samples and
never surface — but an oracle call that throws during classification,
decomposition or synthesis propagates out of `ask` as a rejection. -/
theorem ask_resolves_when_non_voting_calls_succeed (m : Maker) (oracle : MakerOracle)
    (question : String) (options : AskOptions) (fuel : Nat) (res : Except Unit MakerResult)
    (hclassify : oracle.classifyResp.isOk = true)
    (hdecompose : oracle.decomposeResp.isOk = true)
    (hsynth : oracle.synthResp.isOk = true)
    (h : m.ask oracle question options fuel = some res) :
    res.isOk = true := by
  unfold Maker.ask at h
  cases hd : m.decomposer.decompose oracle question options.context with
  | error e => exact absurd hd (decompose_no_error hclassify hdecompose e)
  | ok p =>
    obtain ⟨dec, calls⟩ := p
    simp only [hd] at h
    cases hr : m.runAll oracle options fuel 0 dec.subQuestions with
    | none => simp only [hr] at h; cases h
    | some subResults =>
      simp only [hr] at h
      cases hsy : m.synthesizer.synthesize oracle question subResults with
      | error e => exact absurd hsy (synthesize_no_error hsynth e)
      | ok q =>
        obtain ⟨synth, scalls⟩ := q
        simp only [hsy] at h
        have hres := Option.some.inj h
        rw [← hres]
        rfl

/-- Witness for the amended resolution claim on a full two-sub-question run with
a healthy oracle: `ask` resolves to an `ok` result. -/
theorem ask_resolves_when_non_voting_calls_succeed_witness :
    (Except.ok twoSubResult : Except Unit MakerResult).isOk = true :=
  ask_resolves_when_non_voting_calls_succeed (Maker.ofConfig {}) twoSubOracle "q" {} 10
    (.ok twoSubResult) rfl rfl rfl (by decide)

/-- **C7**: when the resolved plan has two or more sub-questions, the aggregated
statistics of the returned `MakerResult` sum `totalVotes`, `validVotes` and
`redFlaggedVotes` over the sub-results and take the minimum `winningVoteCount`
and minimum `margin` (attained lower bounds, not sums or averages), and the
result's `consensusReached` is the conjunction of the sub-results'. -/
theorem ask_aggregates_conservatively (m : Maker) (oracle : MakerOracle) (question : String)
    (options : AskOptions) (fuel : Nat) (res : MakerResult)
    (h : m.ask oracle question options fuel = some (.ok res))
    (hlen : 2 ≤ res.subQuestions.length) :
    res.votingStats.totalVotes =
        (res.subQuestions.map fun r => r.votingStats.totalVotes).sum ∧
    res.votingStats.validVotes =
        (res.subQuestions.map fun r => r.votingStats.validVotes).sum ∧
    res.votingStats.redFlaggedVotes =
        (res.subQuestions.map fun r => r.votingStats.redFlaggedVotes).sum ∧
    (∀ r ∈ res.subQuestions,
      res.votingStats.winningVoteCount ≤ r.votingStats.winningVoteCount) ∧
    (∃ r ∈ res.subQuestions,
      res.votingStats.winningVoteCount = r.votingStats.winningVoteCount) ∧
    (∀ r ∈ res.subQuestions, res.votingStats.margin ≤ r.votingStats.margin) ∧
    (∃ r ∈ res.subQuestions, res.votingStats.margin = r.votingStats.margin) ∧
    res.consensusReached = (res.subQuestions.all fun r => r.consensusReached) := by
  obtain ⟨dec, calls, subResults, synth, scalls, hd, hr, hsy, hres⟩ := ask_ok_inversion h
  subst hres
  cases subResults with
  | nil => simp [Maker.buildResult] at hlen
  | cons r1 rest =>
    cases rest with
    | nil => simp [Maker.buildResult] at hlen
    | cons r2 rest2 =>
      refine ⟨rfl, rfl, rfl, ?_, ?_, ?_, ?_, rfl⟩
      · intro r hmem
        rcases List.mem_cons.mp hmem with rfl | hmem'
        · exact foldl_min_le_init _ _
        · exact foldl_min_le_mem _ _ _
            (List.mem_map_of_mem (fun x => x.votingStats.winningVoteCount) hmem')
      · rcases foldl_min_mem ((r2 :: rest2).map fun x => x.votingStats.winningVoteCount)
            r1.votingStats.winningVoteCount with hcase | hcase
        · exact ⟨r1, List.mem_cons_self _ _, hcase⟩
        · obtain ⟨r, hmem, hval⟩ := List.mem_map.mp hcase
          exact ⟨r, List.mem_cons_of_mem _ hmem, hval.symm⟩
      · intro r hmem
        rcases List.mem_cons.mp hmem with rfl | hmem'
        · exact foldl_min_le_init _ _
        · exact foldl_min_le_mem _ _ _
            (List.mem_map_of_mem (fun x => x.votingStats.margin) hmem')
      · rcases foldl_min_mem ((r2 :: rest2).map fun x => x.votingStats.margin)
            r1.votingStats.margin with hcase | hcase
        · exact ⟨r1, List.mem_cons_self _ _, hcase⟩
        · obtain ⟨r, hmem, hval⟩ := List.mem_map.mp hcase
          exact ⟨r, List.mem_cons_of_mem _ hmem, hval.symm⟩

/-- Witness for the conservative aggregation on the concrete two-sub-question
run: the summed counters and the conjunction of sub-consensus. -/
theorem ask_aggregates_conservatively_witness :
    twoSubResult.votingStats.totalVotes =
        (twoSubResult.subQuestions.map fun r => r.votingStats.totalVotes).sum ∧
    twoSubResult.consensusReached =
        (twoSubResult.subQuestions.all fun r => r.consensusReached) :=
  ⟨(ask_aggregates_conservatively (Maker.ofConfig {}) twoSubOracle "q" {} 10 twoSubResult
      (by decide) (by decide)).1,
   (ask_aggregates_conservatively (Maker.ofConfig {}) twoSubOracle "q" {} 10 twoSubResult
      (by decide) (by decide)).2.2.2.2.2.2.2⟩

theorem runSubQuestion_stats_k {m : Maker} {oracle : MakerOracle} {options : AskOptions}
    {fuel index : Nat} {sq : SubQuestion} {sr : SubQuestionResult} {kOverride : Nat}
    (hk : options.k = some kOverride)
    (h : m.runSubQuestion oracle options fuel index sq = some sr) :
    sr.votingStats.k = kOverride := by
  unfold Maker.runSubQuestion at h
  simp only [hk] at h
  split at h
  · cases h
  · rename_i result heq
    have hsr := Option.some.inj h
    rw [← hsr]
    exact voteLoop_stats_k heq

theorem runAll_stats_k {m : Maker} {oracle : MakerOracle} {options : AskOptions}
    {fuel : Nat} {kOverride : Nat} (hk : options.k = some kOverride) :
    ∀ {index : Nat} {sqs : List SubQuestion} {subResults : List SubQuestionResult},
      m.runAll oracle options fuel index sqs = some subResults →
      ∀ sr ∈ subResults, sr.votingStats.k = kOverride := by
  intro index sqs
  induction sqs generalizing index with
  | nil =>
    intro subResults h sr hsr
    unfold Maker.runAll at h
    have hnil : [] = subResults := Option.some.inj h
    rw [← hnil] at hsr
    cases hsr
  | cons sq rest ih =>
    intro subResults h sr hsr
    unfold Maker.runAll at h
    cases h1 : m.runSubQuestion oracle options fuel index sq with
    | none => rw [h1] at h; cases h
    | some r =>
      rw [h1] at h
      cases h2 : m.runAll oracle options fuel (index + 1) rest with
      | none => rw [h2] at h; cases h
      | some rs =>
        rw [h2] at h
        have hcons : r :: rs = subResults := Option.some.inj h
        rw [← hcons] at hsr
        rcases List.mem_cons.mp hsr with rfl | hmem
        · exact runSubQuestion_stats_k hk h1
        · exact ih h2 sr hmem

/-- **C10** (implicit): with a per-call `k` override, every sub-question's
`votingStats.k` equals the override, and the aggregated `votingStats.k` of the
returned `MakerResult` equals the override exactly when the plan has one
sub-question — with two or more, it reverts to the constructor-configured
voting `k` (default 3), ignoring the override. -/
theorem ask_k_override_scopes (cfg : MakerConfig) (oracle : MakerOracle) (question : String)
    (ctx : Option String) (kOverride : Nat) (fuel : Nat) (res : MakerResult)
    (h : (Maker.ofConfig cfg).ask oracle question { context := ctx, k := some kOverride } fuel =
      some (.ok res)) :
    (∀ sr ∈ res.subQuestions, sr.votingStats.k = kOverride) ∧
    (res.subQuestions.length = 1 → res.votingStats.k = kOverride) ∧
    (2 ≤ res.subQuestions.length → res.votingStats.k = cfg.voting.k.getD 3) := by
  obtain ⟨dec, calls, subResults, synth, scalls, hd, hr, hsy, hres⟩ := ask_ok_inversion h
  subst hres
  have hall : ∀ sr ∈ subResults, sr.votingStats.k = kOverride := runAll_stats_k rfl hr
  refine ⟨hall, ?_, ?_⟩
  · intro hlen1
    cases subResults with
    | nil => simp [Maker.buildResult] at hlen1
    | cons r1 rest =>
      cases rest with
      | nil => exact hall r1 (List.mem_cons_self _ _)
      | cons r2 rest2 => simp [Maker.buildResult] at hlen1
  · intro hlen2
    cases subResults with
    | nil => simp [Maker.buildResult] at hlen2
    | cons r1 rest =>
      cases rest with
      | nil => simp [Maker.buildResult] at hlen2
      | cons r2 rest2 => rfl

/-- Witness for the override scoping on the concrete two-sub-question run with
override `k = 1`: the aggregated stats report the constructor default 3. -/
theorem ask_k_override_scopes_witness :
    2 ≤ twoSubResultK1.subQuestions.length ∧
    twoSubResultK1.votingStats.k = ({} : MakerConfig).voting.k.getD 3 :=
  ⟨by decide,
   (ask_k_override_scopes {} twoSubOracle "q" none 1 10 twoSubResultK1 (by decide)).2.2
     (by decide)⟩
